import Mathlib

/-!
Verification of the price-validation catalog checker and repair engine
(`main.py` / `modified_version.py`).

Modelling conventions of the shallow embedding:
* Python `dict`s (the price table, the rank tables, the average-price table)
  become association lists looked up by first match; in-place value updates
  become `setP`, which rewrites the matching entry and keeps the key order.
* Python `int` is `Int`; Python `float` arithmetic (average prices, scaling
  ratios, the 0.9 / 1.07 schedules) is modelled exactly by the fraction type
  `Frac` (an integer numerator over a positive integer denominator, not
  necessarily reduced), with the literals 0.9 and 1.07 as 9/10 and 107/100;
  `round` is Python's round-half-to-even (`pyround`). `Frac.toQ` maps the
  model to `ℚ` for the order-theoretic lemmas.
* Raising statements (`KeyError`, `ValueError`, missing dict keys) are
  modelled in `Except String`; a propagated exception is an `Except.error`.
* Mutation of the price table is modelled by threading the table through every
  step that the Python code runs, so a function that never writes returns the
  table it was given.

The repository holds two revisions of the repair engine: the guarded one of
`modified_version.py` (embedded as `fix_products_inplace`) and the unguarded
one of `main.py` (embedded as `fix_products_inplace_main`, whose
`lower_is_core` / `higher_is_core` variables leak across pairs exactly as the
Python function-local variables do).
-/

namespace PriceVal

/-- Rank table for products, from the source `product_rank` dict. -/
def product_rank (p : String) : Option Int :=
  if p = "mtpl" then some 1
  else if p = "limited_casco" then some 2
  else if p = "casco" then some 3
  else none

/-- Rank table for variants, from the source `variants_rank` dict
(`compact` and `basic` share rank 1). -/
def variants_rank (v : String) : Option Int :=
  if v = "compact" then some 1
  else if v = "basic" then some 1
  else if v = "comfort" then some 2
  else if v = "premium" then some 3
  else none

/-- Rank table for deductibles, from the source `deductables_rank` dict. -/
def deductables_rank (d : Int) : Option Int :=
  if d = 100 then some 1
  else if d = 200 then some 2
  else if d = 500 then some 3
  else none

/-- The singleton set `core_product = {"mtpl"}`. -/
def core_product : List String := ["mtpl"]

/-- Membership in `core_product` (`is_core_product` in `modified_version.py`). -/
def is_core_product (p : String) : Bool :=
  core_product.contains p

/-- `get_product_rank`: a missing product raises `KeyError`. -/
def get_product_rank (p : String) : Except String Int :=
  match product_rank p with
  | some r => .ok r
  | none => .error ("KeyError: Unknown product key: " ++ p)

/-- `get_variant_rank` applied to the element's optional variant; Python would
look up `None` in the dict and raise `KeyError`. -/
def get_variant_rank (v : Option String) : Except String Int :=
  match v with
  | some s =>
    match variants_rank s with
    | some r => .ok r
    | none => .error ("KeyError: Unknown variant key: " ++ s)
  | none => .error "KeyError: Unknown variant key: None"

/-- `get_deductible_rank` applied to the element's optional deductible. -/
def get_deductible_rank (d : Option Int) : Except String Int :=
  match d with
  | some n =>
    match deductables_rank n with
    | some r => .ok r
    | none => .error ("KeyError: Unknown deductible key: " ++ toString n)
  | none => .error "KeyError: Unknown deductible key: None"

/-- An exact rational, numerator over denominator; every value built by the
embedding keeps `0 < d`. Python `float` values are modelled by the exact
rational they denote. -/
structure Frac where
  n : Int
  d : Int
deriving DecidableEq, Repr

/-- Embed an integer as a fraction. -/
def Frac.ofInt (i : Int) : Frac := ⟨i, 1⟩

/-- Fraction multiplication. -/
def Frac.mul (a b : Frac) : Frac := ⟨a.n * b.n, a.d * b.d⟩

/-- Fraction division, keeping the denominator positive (the embedding only
divides by nonzero values). -/
def Frac.div (a b : Frac) : Frac :=
  let nn := a.n * b.d
  let dd := a.d * b.n
  if dd < 0 then ⟨-nn, -dd⟩ else ⟨nn, dd⟩

/-- Fraction power with an integer exponent (Python `x ** k`). -/
def Frac.zpow (a : Frac) (z : Int) : Frac :=
  if 0 ≤ z then ⟨a.n ^ z.toNat, a.d ^ z.toNat⟩
  else (Frac.ofInt 1).div ⟨a.n ^ (-z).toNat, a.d ^ (-z).toNat⟩

/-- Python `x == 0` on a float: for a positive denominator, the numerator is
zero. -/
def Frac.isZero (a : Frac) : Bool := a.n == 0

/-- The value of a fraction, as a rational number. -/
def Frac.toQ (a : Frac) : ℚ := (a.n : ℚ) / (a.d : ℚ)

/-- Python's `round` on an exact value `n / d` with `0 < d`:
round half to even. `fdiv` is floor division, so `fl` is the floor and
`rem / d` the fractional part, compared with `1/2` by cross-multiplication. -/
def pyround (f : Frac) : Int :=
  let fl := Int.fdiv f.n f.d
  let rem := f.n - fl * f.d
  if 2 * rem < f.d then fl
  else if f.d < 2 * rem then fl + 1
  else if fl % 2 = 0 then fl else fl + 1

/-- The `PriceElement` dataclass. -/
structure PriceElement where
  key : String
  product : String
  variant : Option String := none
  deductible : Option Int := none
deriving DecidableEq, Repr

/-- Value of a nonempty all-digit character list, `none` otherwise; helper for
`pyInt`. -/
def decDigits (cs : List Char) : Option Nat :=
  match cs with
  | [] => none
  | _ =>
    cs.foldl
      (fun acc c =>
        match acc with
        | none => none
        | some n => if c.isDigit then some (n * 10 + (c.toNat - 48)) else none)
      (some 0)

/-- Python's `int(s)` on a token with an optional single leading sign followed
by decimal digits (the only shapes a `"_"`-split token of a price key can
take, apart from surrounding whitespace, which this model rejects). -/
def pyInt (s : String) : Option Int :=
  match s.data with
  | [] => none
  | '+' :: rest => (decDigits rest).map (fun n => (n : Int))
  | '-' :: rest => (decDigits rest).map (fun n => -(n : Int))
  | _ => (decDigits s.data).map (fun n => (n : Int))

/-- Split a character list at every occurrence of `sep`, keeping empty
segments: the structural model of Python's `str.split(sep)` for a one
character separator. The result is always nonempty. -/
def splitChars (sep : Char) : List Char → List (List Char)
  | [] => [[]]
  | c :: rest =>
    match splitChars sep rest with
    | [] => [[c]]
    | h :: t => if c = sep then [] :: h :: t else (c :: h) :: t

/-- Python's `key.split("_")`. -/
def pySplit (s : String) (sep : Char) : List String :=
  (splitChars sep s.data).map (fun cs => ⟨cs⟩)

/-- `parse_price_key`: split on `"_"`; a 4-token key starting
`limited`, `casco` is the two-word product `limited_casco`; a 3-token key is
`<product>_<variant>_<deductible>`; anything else raises `ValueError`, as does
a deductible token that is not an integer. -/
def parse_price_key (input_key : String) : Except String PriceElement :=
  match pySplit input_key '_' with
  | ["limited", "casco", v, dtok] =>
    match pyInt dtok with
    | some d => .ok ⟨input_key, "limited_casco", some v, some d⟩
    | none => .error ("ValueError: invalid literal for int: " ++ dtok)
  | [p, v, dtok] =>
    match pyInt dtok with
    | some d => .ok ⟨input_key, p, some v, some d⟩
    | none => .error ("ValueError: invalid literal for int: " ++ dtok)
  | _ => .error ("ValueError: Unrecognized key format: " ++ input_key)

/-- The price table: a Python dict from key to integer price, as an insertion
ordered association list. -/
abbrev PriceTable := List (String × Int)

/-- `prices[k]` read; a missing key raises `KeyError`. -/
def lookupP (prices : PriceTable) (k : String) : Except String Int :=
  match prices.find? (fun kv => kv.1 == k) with
  | some kv => .ok kv.2
  | none => .error ("KeyError: " ++ k)

/-- `prices[k] = v` on a key already present: rewrite the entry in place. -/
def setP (prices : PriceTable) (k : String) (v : Int) : PriceTable :=
  prices.map (fun kv => if kv.1 == k then (kv.1, v) else kv)

/-- `avg_prices.get(p)`: a `dict.get` that returns `None` on a missing key. -/
def avgGet (avg_prices : List (String × Frac)) (p : String) : Option Frac :=
  match avg_prices.find? (fun kv => kv.1 == p) with
  | some kv => some kv.2
  | none => none

/-- `build_price_items`: one `PriceElement` per key, in table order; a key in
`core_product` becomes the bare core element, every other key is parsed. -/
def build_price_items (prices : PriceTable) : Except String (List PriceElement) :=
  prices.foldlM
    (fun items kv =>
      if is_core_product kv.1 then
        pure (items ++ [⟨kv.1, kv.1, none, none⟩])
      else do
        let e ← parse_price_key kv.1
        pure (items ++ [e]))
    []

/-- Python's `sep.join(ls)`. -/
def pyJoin (sep : String) : List String → String
  | [] => ""
  | [a] => a
  | a :: rest => a ++ sep ++ pyJoin sep rest

/-- All index pairs `i < j` of a list, enumerated exactly like the source's
`for i in range(n): for j in range(i+1, n)` double loop. -/
def allPairs : List α → List (α × α)
  | [] => []
  | x :: xs => xs.map (fun y => (x, y)) ++ allPairs xs

/-- The `lower, higher = (a, b) if ra < rb else (b, a)` tuple reassignment. -/
def order_by_rank (a b : PriceElement) (ra rb : Int) : PriceElement × PriceElement :=
  if ra < rb then (a, b) else (b, a)

/-- One violation line of the report, from the source f-strings. -/
def violationLine (tag : String) (lowKey : String) (lowPrice : Int)
    (highKey : String) (highPrice : Int) : String :=
  tag ++ ": '" ++ lowKey ++ "' (" ++ toString lowPrice ++
    ") should be cheaper than '" ++ highKey ++ "' (" ++ toString highPrice ++ ")."

/-- Rule 3 of `detect_inconsistencies`: variant order inside one product at
one deductible. -/
def rule3_lines (a b : PriceElement) (price_a price_b : Int) :
    Except String (List String) :=
  if a.product = b.product ∧ ¬is_core_product a.product ∧ ¬is_core_product b.product ∧
      a.deductible = b.deductible then do
    let va ← get_variant_rank a.variant
    let vb ← get_variant_rank b.variant
    if va ≠ vb then
      let (lower_v, higher_v) := order_by_rank a b va vb
      let lower_price := if va < vb then price_a else price_b
      let higher_price := if va < vb then price_b else price_a
      if lower_price ≥ higher_price then
        pure [violationLine "VARIANT ORDER" lower_v.key lower_price higher_v.key higher_price]
      else pure []
    else pure []
  else pure []

/-- Rule 4 of `detect_inconsistencies`: deductible order inside one product at
one variant. -/
def rule4_lines (a b : PriceElement) (price_a price_b : Int) :
    Except String (List String) :=
  if a.product = b.product ∧ ¬is_core_product a.product ∧ ¬is_core_product b.product ∧
      a.variant = b.variant then do
    let da ← get_deductible_rank a.deductible
    let db ← get_deductible_rank b.deductible
    if da ≠ db then
      let (lower_d, higher_d) := order_by_rank a b da db
      let lower_price := if da < db then price_a else price_b
      let higher_price := if da < db then price_b else price_a
      if higher_price ≥ lower_price then
        pure [violationLine "DEDUCTIBLE ORDER" higher_d.key higher_price lower_d.key lower_price]
      else pure []
    else pure []
  else pure []

/-- The body of `detect_inconsistencies`' pair loop for one pair `(a, b)`:
the four rule families in source order, returning the lines this pair
appends. -/
def detect_pair_lines (prices : PriceTable) (a b : PriceElement) :
    Except String (List String) := do
  let price_a ← lookupP prices a.key
  let price_b ← lookupP prices b.key
  let pa ← get_product_rank a.product
  let pb ← get_product_rank b.product
  -- Rule 1: product order against the core product.
  let lines1 :=
    if pa ≠ pb then
      let (lower, higher) := order_by_rank a b pa pb
      let lower_price := if pa < pb then price_a else price_b
      let higher_price := if pa < pb then price_b else price_a
      if is_core_product lower.product ∧ lower_price ≥ higher_price then
        [violationLine "PRODUCT ORDER" lower.key lower_price higher.key higher_price]
      else []
    else []
  -- Rule 2: cross-product order at matching variant and deductible.
  let lines2 :=
    if a.product ≠ b.product ∧ ¬is_core_product a.product ∧ ¬is_core_product b.product ∧
        a.variant = b.variant ∧ a.deductible = b.deductible then
      let (lower_p, higher_p) := order_by_rank a b pa pb
      let lower_price := if pa < pb then price_a else price_b
      let higher_price := if pa < pb then price_b else price_a
      if lower_price ≥ higher_price then
        [violationLine "PRODUCT ORDER (same variant+deductible)"
          lower_p.key lower_price higher_p.key higher_price]
      else []
    else []
  -- Rule 3: variant order inside one product at one deductible.
  let lines3 ← rule3_lines a b price_a price_b
  -- Rule 4: deductible order inside one product at one variant.
  let lines4 ← rule4_lines a b price_a price_b
  pure (lines1 ++ lines2 ++ lines3 ++ lines4)

/-- One pair body together with the price table it leaves behind: the loop
body only reads the table, so it hands back the table it was given. -/
def detect_pair (prices : PriceTable) (a b : PriceElement) :
    Except String (List String × PriceTable) := do
  let ls ← detect_pair_lines prices a b
  pure (ls, prices)

/-- The accumulated report lines of `detect_inconsistencies` over all pairs,
with the price table threaded through every read. -/
def detectLines (items : List PriceElement) (prices : PriceTable) :
    Except String (List String × PriceTable) :=
  (allPairs items).foldlM
    (fun st ab => do
      let (ls, p') ← detect_pair st.2 ab.1 ab.2
      pure (st.1 ++ ls, p'))
    (([] : List String), prices)

/-- `detect_inconsistencies`: the newline-joined report, together with the
price table the call leaves behind. -/
def detect_inconsistencies (items : List PriceElement) (prices : PriceTable) :
    Except String (String × PriceTable) := do
  let (ls, p') ← detectLines items prices
  pure (pyJoin "\n" ls, p')

/-- `group_items` of `modified_version.py`: filter by a predicate. -/
def group_items (items : List PriceElement) (pred : PriceElement → Bool) :
    List PriceElement :=
  items.filter pred

/-- `max_price_in_group`: running maximum over the members selected by an
(effectful, possibly raising) predicate; `none` when no member matches. -/
def max_price_in_group (items : List PriceElement) (prices : PriceTable)
    (pred : PriceElement → Except String Bool) : Except String (Option Int) :=
  items.foldlM
    (fun mx it => do
      if (← pred it) then do
        let p ← lookupP prices it.key
        pure (some (match mx with | none => p | some m => max m p))
      else pure mx)
    none

/-- `min_price_in_group`: running minimum, same shape as `max_price_in_group`. -/
def min_price_in_group (items : List PriceElement) (prices : PriceTable)
    (pred : PriceElement → Except String Bool) : Except String (Option Int) :=
  items.foldlM
    (fun mn it => do
      if (← pred it) then do
        let p ← lookupP prices it.key
        pure (some (match mn with | none => p | some m => min m p))
      else pure mn)
    none

/-- `scale_product`: multiply every price of one product by `factor`,
rounding, writing (and flagging `changed`) only when the value differs. -/
def scale_product (items : List PriceElement) (prices : PriceTable)
    (product : String) (factor : Frac) : Except String (PriceTable × Bool) :=
  items.foldlM
    (fun st it =>
      if it.product == product then do
        let p ← lookupP st.1 it.key
        let new_val := pyround ((Frac.ofInt p).mul factor)
        if new_val ≠ p then pure (setP st.1 it.key new_val, true)
        else pure st
      else pure st)
    (prices, false)

/-- `apply_deductible_schedule`: reset every group member to
`round(base * 0.9^(rank-1))`, flagging `changed` on a real write. -/
def apply_deductible_schedule (group : List PriceElement) (prices : PriceTable)
    (base : Int) : Except String (PriceTable × Bool) :=
  group.foldlM
    (fun st it => do
      let r ← get_deductible_rank it.deductible
      let new_price := pyround ((Frac.ofInt base).mul ((Frac.mk 9 10).zpow (r - 1)))
      let p ← lookupP st.1 it.key
      if new_price ≠ p then pure (setP st.1 it.key new_price, true)
      else pure st)
    (prices, false)

/-- `apply_variant_schedule`: reset every group member to
`round(base * 1.07^(rank-1))`, flagging `changed` on a real write. -/
def apply_variant_schedule (group : List PriceElement) (prices : PriceTable)
    (base : Int) : Except String (PriceTable × Bool) :=
  group.foldlM
    (fun st it => do
      let r ← get_variant_rank it.variant
      let new_price := pyround ((Frac.ofInt base).mul ((Frac.mk 107 100).zpow (r - 1)))
      let p ← lookupP st.1 it.key
      if new_price ≠ p then pure (setP st.1 it.key new_price, true)
      else pure st)
    (prices, false)

/-- CASE 1 of the `pa != pb` arm: both non-core at matching variant and
deductible; rescale the higher key to `round(lower_price * ratio)` and then
the whole higher product by `new_h / old_h` (guarding `old_h != 0`).
The direct `prices[higher.key] = new_h` write does not touch `changed`. -/
def cross_same_tier_action (items : List PriceElement) (prices : PriceTable)
    (changed : Bool) (lower higher : PriceElement) (lower_price : Int)
    (ratio : Frac) : Except String (PriceTable × Bool) :=
  if ¬is_core_product lower.product ∧ ¬is_core_product higher.product ∧
      lower.variant = higher.variant ∧ lower.deductible = higher.deductible then do
    let old_h ← lookupP prices higher.key
    let new_h := pyround ((Frac.ofInt lower_price).mul ratio)
    if old_h ≠ 0 then do
      let factor := (Frac.ofInt new_h).div (Frac.ofInt old_h)
      let prices1 := setP prices higher.key new_h
      let (prices2, ch) ← scale_product items prices1 higher.product factor
      pure (prices2, changed || ch)
    else pure (prices, changed)
  else pure (prices, changed)

/-- CASE 2 of the `pa != pb` arm: lower is core, higher is non-core; scale
the whole higher product so its minimum lands on `round(core_price * ratio)`
(guarding a missing group and a zero old minimum). -/
def core_anchor_action (items : List PriceElement) (st1 : PriceTable × Bool)
    (lower higher : PriceElement) (lower_price : Int) (ratio : Frac) :
    Except String (PriceTable × Bool) :=
  if is_core_product lower.product ∧ ¬is_core_product higher.product then do
    let old_min ← min_price_in_group items st1.1
      (fun it => pure (it.product == higher.product))
    match old_min with
    | some m =>
      if m ≠ 0 then do
        let new_min := pyround ((Frac.ofInt lower_price).mul ratio)
        let factor := (Frac.ofInt new_min).div (Frac.ofInt m)
        let (prices2, ch) ← scale_product items st1.1 higher.product factor
        pure (prices2, st1.2 || ch)
      else pure st1
    | none => pure st1
  else pure st1

/-- The deductible-schedule branch body of the `pa == pb` arm, entered with
the (integer) deductible ranks of the two elements: when the lower-rank price
is not already strictly above the higher-rank one, reset the whole
product+variant group to the 0.9-decay schedule off its rank-1 maximum. -/
def deductible_fire (items : List PriceElement) (prices : PriceTable)
    (changed : Bool) (a lower_d higher_d : PriceElement) :
    Except String (PriceTable × Bool) :=
  match lookupP prices lower_d.key, lookupP prices higher_d.key with
  | .ok lower_price, .ok higher_price =>
    if lower_price ≤ higher_price then do
      let group := group_items items
        (fun it => it.product == a.product && !is_core_product it.product &&
          it.variant == a.variant)
      let base ← max_price_in_group group prices
        (fun it => do pure ((← get_deductible_rank it.deductible) == 1))
      match base with
      | some bv => do
        let (p2, ch) ← apply_deductible_schedule group prices bv
        pure (p2, changed || ch)
      | none => pure (prices, changed)
    else pure (prices, changed)
  | .error e, _ => .error e
  | _, .error e => .error e

/-- Wrapper selecting `lower_d, higher_d = (a, b) if da < db else (b, a)`. -/
def deductible_action (items : List PriceElement) (prices : PriceTable)
    (changed : Bool) (a b : PriceElement) (dav dbv : Int) :
    Except String (PriceTable × Bool) :=
  if dav < dbv then deductible_fire items prices changed a a b
  else deductible_fire items prices changed a b a

/-- The variant-schedule branch body of the `pa == pb` arm, entered with the
(integer) variant ranks of the two elements: when the lower-rank price is not
already strictly below the higher-rank one, reset the whole
product+deductible group to the 1.07-markup schedule off its rank-1 maximum. -/
def variant_fire (items : List PriceElement) (prices : PriceTable)
    (changed : Bool) (a lower_v higher_v : PriceElement) :
    Except String (PriceTable × Bool) :=
  match lookupP prices lower_v.key, lookupP prices higher_v.key with
  | .ok lower_price, .ok higher_price =>
    if lower_price ≥ higher_price then do
      let group := group_items items
        (fun it => it.product == a.product && !is_core_product it.product &&
          it.deductible == a.deductible)
      let base ← max_price_in_group group prices
        (fun it => do pure ((← get_variant_rank it.variant) == 1))
      match base with
      | some bv => do
        let (p2, ch) ← apply_variant_schedule group prices bv
        pure (p2, changed || ch)
      | none => pure (prices, changed)
    else pure (prices, changed)
  | .error e, _ => .error e
  | _, .error e => .error e

/-- Wrapper selecting `lower_v, higher_v = (a, b) if va < vb else (b, a)`. -/
def variant_action (items : List PriceElement) (prices : PriceTable)
    (changed : Bool) (a b : PriceElement) (vav vbv : Int) :
    Except String (PriceTable × Bool) :=
  if vav < vbv then variant_fire items prices changed a a b
  else variant_fire items prices changed a b a

/-- One pair body of `modified_version.py`'s `fix_products_inplace` inner
double loop, acting on the running `(prices, changed)` state.

In the source, the `va`/`vb`/`da`/`db` locals of a non-core element are always
integers (the `None` branch is taken exactly for core elements), so the
`Option.getD 0` defaults below are never read under the guards that use them. -/
def processPairCore (avg_prices : List (String × Frac)) (items : List PriceElement)
    (st : PriceTable × Bool) (a b : PriceElement) (pa pb : Int)
    (va vb da db : Option Int) : Except String (PriceTable × Bool) := do
  let prices := st.1
  let changed := st.2
  let a_is_core := is_core_product a.product
  let b_is_core := is_core_product b.product
  let _price_a ← lookupP prices a.key
  let _price_b ← lookupP prices b.key
  if pa ≠ pb then
    let (lower, higher) := order_by_rank a b pa pb
    match lookupP prices lower.key, lookupP prices higher.key with
    | .ok lower_price, .ok higher_price =>
      match avgGet avg_prices lower.product, avgGet avg_prices higher.product with
      | some avg_low, some avg_high =>
        if avg_low.isZero then pure (prices, changed)   -- continue
        else
          let ratio := Frac.div avg_high avg_low
          if lower_price ≥ higher_price then do
            let st1 ← cross_same_tier_action items prices changed lower higher
              lower_price ratio
            core_anchor_action items st1 lower higher lower_price ratio
          else pure (prices, changed)
      | _, _ => pure (prices, changed)   -- continue: an average price is missing
    | .error e, _ => .error e
    | _, .error e => .error e
  else do
    -- Same product rank: the deductible-schedule branch, then the
    -- variant-schedule branch (their guards are mutually exclusive).
    let st1 ←
      if ¬a_is_core ∧ ¬b_is_core ∧ va = vb ∧ da ≠ db then
        deductible_action items prices changed a b (da.getD 0) (db.getD 0)
      else pure (prices, changed)
    if ¬a_is_core ∧ ¬b_is_core ∧ da = db ∧ va ≠ vb then
      variant_action items st1.1 st1.2 a b (va.getD 0) (vb.getD 0)
    else pure st1

def processPair (avg_prices : List (String × Frac)) (items : List PriceElement)
    (st : PriceTable × Bool) (a b : PriceElement) :
    Except String (PriceTable × Bool) := do
  let pa ← get_product_rank a.product
  let pb ← get_product_rank b.product
  let a_is_core := is_core_product a.product
  let b_is_core := is_core_product b.product
  let va ← if a_is_core then pure (none : Option Int) else do
    pure (some (← get_variant_rank a.variant))
  let vb ← if b_is_core then pure (none : Option Int) else do
    pure (some (← get_variant_rank b.variant))
  let da ← if a_is_core then pure (none : Option Int) else do
    pure (some (← get_deductible_rank a.deductible))
  let db ← if b_is_core then pure (none : Option Int) else do
    pure (some (← get_deductible_rank b.deductible))
  processPairCore avg_prices items st a b pa pb va vb da db

/-- One full pair scan (one iteration of the outer loop) of
`modified_version.py`'s `fix_products_inplace`; the `changed` flag starts
false each iteration. -/
def run_iteration (avg_prices : List (String × Frac)) (items : List PriceElement)
    (prices : PriceTable) : Except String (PriceTable × Bool) :=
  (allPairs items).foldlM
    (fun st ab => processPair avg_prices items st ab.1 ab.2)
    (prices, false)

/-- The outer `for _ in range(max_iters)` loop with its
`if not changed: break`. -/
def fix_loop (avg_prices : List (String × Frac)) (items : List PriceElement) :
    Nat → PriceTable → Except String PriceTable
  | 0, prices => .ok prices
  | n + 1, prices => do
    let (p', ch) ← run_iteration avg_prices items prices
    if ch then fix_loop avg_prices items n p' else .ok p'

/-- `fix_products_inplace` of `modified_version.py` (the guarded revision
that spec §9 designates): returns the price table after the repair run. -/
def fix_products_inplace (items : List PriceElement) (prices : PriceTable)
    (avg_prices : List (String × Frac)) (max_iters : Nat := 10) :
    Except String PriceTable :=
  fix_loop avg_prices items max_iters prices

/-- `fix_loop` instrumented with the number of executed iterations. -/
def fix_loop_run (avg_prices : List (String × Frac)) (items : List PriceElement) :
    Nat → PriceTable → Except String (PriceTable × Nat)
  | 0, prices => .ok (prices, 0)
  | n + 1, prices => do
    let (p', ch) ← run_iteration avg_prices items prices
    if ch then do
      let (pf, k) ← fix_loop_run avg_prices items n p'
      pure (pf, k + 1)
    else pure (p', 1)

/-- Running state of `main.py`'s pair loop: the price table, the `changed`
flag, and the last values of the function-local `lower_is_core` /
`higher_is_core` variables, which are assigned only inside the `pa != pb`
branch and read (stale, or unbound: `NameError`) by the `else` branch. -/
structure MainState where
  prices : PriceTable
  changed : Bool
  coreFlags : Option (Bool × Bool)
deriving DecidableEq, Repr

/-- One pair body of `main.py`'s `fix_products_inplace`: the ratio is computed
unguarded (a missing average raises `TypeError`, a zero one
`ZeroDivisionError`), CASE 1 rescales only the higher key and never sets
`changed`, CASE 2 never sets `changed`, and the deductible branch has no
`base is not None` guard. -/
def processPairMain (avg_prices : List (String × Frac)) (items : List PriceElement)
    (st : MainState) (a b : PriceElement) : Except String MainState := do
  let prices := st.prices
  let pa ← get_product_rank a.product
  let pb ← get_product_rank b.product
  let va ← if is_core_product a.product then pure (none : Option Int) else do
    pure (some (← get_variant_rank a.variant))
  let vb ← if is_core_product b.product then pure (none : Option Int) else do
    pure (some (← get_variant_rank b.variant))
  let da ← if is_core_product a.product then pure (none : Option Int) else do
    pure (some (← get_deductible_rank a.deductible))
  let db ← if is_core_product b.product then pure (none : Option Int) else do
    pure (some (← get_deductible_rank b.deductible))
  if pa ≠ pb then do
    let (lower, higher) := order_by_rank a b pa pb
    let lower_is_core := is_core_product lower.product
    let higher_is_core := is_core_product higher.product
    let lower_price ← lookupP prices lower.key
    let higher_price ← lookupP prices higher.key
    match avgGet avg_prices lower.product, avgGet avg_prices higher.product with
    | some avg_low, some avg_high =>
      if avg_low.isZero then .error "ZeroDivisionError: float division by zero"
      else
        let ratio := Frac.div avg_high avg_low
        if lower_price ≥ higher_price then do
          -- CASE 1: non-core vs non-core at matching variant and deductible.
          let prices1 ←
            if ¬lower_is_core ∧ ¬higher_is_core ∧ lower.variant = higher.variant ∧
                lower.deductible = higher.deductible then do
              let old_h ← lookupP prices higher.key
              let new_h := pyround ((Frac.ofInt lower_price).mul ratio)
              if old_h = 0 then .error "ZeroDivisionError: division by zero"
              else pure (setP prices higher.key new_h)
            else pure prices
          -- CASE 2: lower is core, higher is not.
          if is_core_product lower.product ∧ ¬is_core_product higher.product then do
            let old_min ← min_price_in_group items prices1
              (fun it => pure (it.product == higher.product))
            match old_min with
            | none => .error "TypeError: unsupported operand (old_min is None)"
            | some m =>
              if m = 0 then .error "ZeroDivisionError: division by zero"
              else do
                let new_min := pyround ((Frac.ofInt lower_price).mul ratio)
                let factor := (Frac.ofInt new_min).div (Frac.ofInt m)
                let prices2 ← items.foldlM
                  (fun acc it =>
                    if it.product == higher.product then do
                      let p ← lookupP acc it.key
                      pure (setP acc it.key (pyround ((Frac.ofInt p).mul factor)))
                    else pure acc)
                  prices1
                pure ⟨prices2, st.changed, some (lower_is_core, higher_is_core)⟩
          else pure ⟨prices1, st.changed, some (lower_is_core, higher_is_core)⟩
        else pure ⟨prices, st.changed, some (lower_is_core, higher_is_core)⟩
    | _, _ => .error "TypeError: unsupported operand type for /"
  else do
    match st.coreFlags with
    | none => .error "NameError: name lower_is_core is not defined"
    | some (lower_is_core, higher_is_core) =>
      if ¬lower_is_core ∧ ¬higher_is_core ∧ va = vb ∧ da ≠ db then do
        let (lower_d, higher_d) :=
          if da.getD 0 < db.getD 0 then (a, b) else (b, a)
        let lower_price ← lookupP prices lower_d.key
        let higher_price ← lookupP prices higher_d.key
        if lower_price ≤ higher_price then do
          let group := group_items items
            (fun it => it.product == a.product && !is_core_product it.product &&
              it.variant == a.variant)
          let base ← max_price_in_group group prices
            (fun it => do pure ((← get_deductible_rank it.deductible) == 1))
          match base with
          | none => .error "TypeError: unsupported operand (base is None)"
          | some bv => do
            let (p2, ch) ← apply_deductible_schedule group prices bv
            pure ⟨p2, st.changed || ch, st.coreFlags⟩
        else pure st
      else
        if ¬lower_is_core ∧ ¬higher_is_core ∧ da = db ∧ va ≠ vb then do
          let (lower_v, higher_v) :=
            if va.getD 0 < vb.getD 0 then (a, b) else (b, a)
          let lower_price ← lookupP prices lower_v.key
          let higher_price ← lookupP prices higher_v.key
          if lower_price ≥ higher_price then do
            let group := group_items items
              (fun it => it.product == a.product && !is_core_product it.product &&
                it.deductible == a.deductible)
            let base ← max_price_in_group group prices
              (fun it => do pure ((← get_variant_rank it.variant) == 1))
            match base with
            | none => pure st
            | some bv => do
              let (p2, ch) ← apply_variant_schedule group prices bv
              pure ⟨p2, st.changed || ch, st.coreFlags⟩
          else pure st
        else pure st

/-- One full pair scan of `main.py`'s `fix_products_inplace`. -/
def run_iteration_main (avg_prices : List (String × Frac)) (items : List PriceElement)
    (prices : PriceTable) (coreFlags : Option (Bool × Bool)) :
    Except String MainState :=
  (allPairs items).foldlM
    (fun st ab => processPairMain avg_prices items st ab.1 ab.2)
    ⟨prices, false, coreFlags⟩

/-- The outer loop of `main.py`'s `fix_products_inplace`, threading the stale
core flags across iterations (they are function-local in Python). -/
def fix_loop_main (avg_prices : List (String × Frac)) (items : List PriceElement) :
    Nat → PriceTable → Option (Bool × Bool) → Except String PriceTable
  | 0, prices, _ => .ok prices
  | n + 1, prices, coreFlags => do
    let st ← run_iteration_main avg_prices items prices coreFlags
    if st.changed then fix_loop_main avg_prices items n st.prices st.coreFlags
    else .ok st.prices

/-- `fix_products_inplace` of `main.py` (the unguarded revision). -/
def fix_products_inplace_main (items : List PriceElement) (prices : PriceTable)
    (avg_prices : List (String × Frac)) (max_iters : Nat := 10) :
    Except String PriceTable :=
  fix_loop_main avg_prices items max_iters prices none

/-- `fix_loop_main` instrumented with the number of executed iterations. -/
def fix_loop_main_run (avg_prices : List (String × Frac)) (items : List PriceElement) :
    Nat → PriceTable → Option (Bool × Bool) → Except String (PriceTable × Nat)
  | 0, prices, _ => .ok (prices, 0)
  | n + 1, prices, coreFlags => do
    let st ← run_iteration_main avg_prices items prices coreFlags
    if st.changed then do
      let (pf, k) ← fix_loop_main_run avg_prices items n st.prices st.coreFlags
      pure (pf, k + 1)
    else pure (st.prices, 1)

/-! ### Well-formedness predicates used as hypotheses -/

/-- Whether an exceptional computation succeeded. -/
def isOkE : Except String α → Bool
  | .ok _ => true
  | .error _ => false

/-- All rank lookups the repair engine performs on one element succeed:
the product rank resolves, and, for a non-core element, so do the variant and
deductible ranks. -/
def ranks_ok (it : PriceElement) : Bool :=
  isOkE (get_product_rank it.product) &&
    (is_core_product it.product ||
      (isOkE (get_variant_rank it.variant) && isOkE (get_deductible_rank it.deductible)))

/-- No two items of the list carry distinct variant names of equal variant
rank (rules out the compact/basic rank tie). -/
def variant_ranks_injective (items : List PriceElement) : Bool :=
  items.all (fun x => items.all (fun y =>
    match get_variant_rank x.variant, get_variant_rank y.variant with
    | .ok rx, .ok ry => rx != ry || x.variant == y.variant
    | _, _ => true))

/-! ### Generic lemmas about the `Except` monad and the table primitives -/

theorem exc_bind_ok {α β : Type} (a : α) (f : α → Except String β) :
    (Except.ok a >>= f) = f a := rfl

theorem exc_bind_err {α β : Type} (e : String) (f : α → Except String β) :
    ((Except.error e : Except String α) >>= f) = .error e := rfl

theorem exc_pure {α : Type} (a : α) : (pure a : Except String α) = .ok a := rfl

theorem isOkE_exists {α : Type} {e : Except String α} (h : isOkE e = true) :
    ∃ v, e = .ok v := by
  cases e with
  | ok v => exact ⟨v, rfl⟩
  | error s => simp [isOkE] at h

/-! ### Claim C6 -/

/-- Claim C6: on the two-entry table
`{"limited_casco_basic_100": 900, "limited_casco_comfort_100": 850}`,
building the price items and running `detect_inconsistencies` yields exactly
the single line
`VARIANT ORDER: 'limited_casco_basic_100' (900) should be cheaper than
'limited_casco_comfort_100' (850).` and no other violation line (and leaves
the table unchanged). -/
theorem claim6_scenario1 :
    (build_price_items
        [("limited_casco_basic_100", 900), ("limited_casco_comfort_100", 850)]).bind
      (fun its => detect_inconsistencies its
        [("limited_casco_basic_100", 900), ("limited_casco_comfort_100", 850)]) =
    .ok ("VARIANT ORDER: 'limited_casco_basic_100' (900) should be cheaper than 'limited_casco_comfort_100' (850).",
      [("limited_casco_basic_100", 900), ("limited_casco_comfort_100", 850)]) := by
  rfl

/-! ### Claim C10 -/

/-- Claim C10: the key `"limited_casco_100"` has exactly three `"_"`-separated
tokens whose first two are `limited` and `casco`; `parse_price_key` accepts it
and returns product `"limited"` with variant `"casco"` and deductible `100`,
rather than the two-word product `limited_casco` or a malformed-key error. -/
theorem claim10_three_token_key :
    parse_price_key "limited_casco_100" =
      .ok ⟨"limited_casco_100", "limited", some "casco", some 100⟩ := by
  rfl

/-! ### Claim C7: counterexample -/

/-- Counterexample to claim C7 as stated: the key `"casco_basic_007"` is
accepted by `parse_price_key` (deductible token `"007"`, value `7`), but
re-joining product, variant and the deductible's decimal rendering with `"_"`
gives `"casco_basic_7"`, not the original key. -/
theorem claim7_cex :
    parse_price_key "casco_basic_007" =
        .ok ⟨"casco_basic_007", "casco", some "basic", some 7⟩ ∧
      "casco" ++ "_" ++ "basic" ++ "_" ++ toString (7 : Int) ≠ "casco_basic_007" := by
  exact ⟨rfl, by decide⟩

/-! ### Claim C2: counterexample -/

/-- Counterexample to claim C2 as stated: on this two-item table one
iteration of the repair loop rewrites `casco_basic_100` from 1 to 0 through
the cross-product direct assignment (CASE 1), yet its `changed` flag is
`false`, so the loop exits early even though a price value was modified
during the iteration. -/
theorem claim2_cex :
    build_price_items [("limited_casco_basic_100", 1), ("casco_basic_100", 1)] =
        .ok [⟨"limited_casco_basic_100", "limited_casco", some "basic", some 100⟩,
          ⟨"casco_basic_100", "casco", some "basic", some 100⟩] ∧
      run_iteration [("limited_casco", ⟨800, 1⟩), ("casco", ⟨400, 1⟩)]
          [⟨"limited_casco_basic_100", "limited_casco", some "basic", some 100⟩,
            ⟨"casco_basic_100", "casco", some "basic", some 100⟩]
          [("limited_casco_basic_100", 1), ("casco_basic_100", 1)] =
        .ok ([("limited_casco_basic_100", 1), ("casco_basic_100", 0)], false) ∧
      [("limited_casco_basic_100", 1), ("casco_basic_100", 0)] ≠
        [("limited_casco_basic_100", 1), ("casco_basic_100", 1)] ∧
      fix_products_inplace
          [⟨"limited_casco_basic_100", "limited_casco", some "basic", some 100⟩,
            ⟨"casco_basic_100", "casco", some "basic", some 100⟩]
          [("limited_casco_basic_100", 1), ("casco_basic_100", 1)]
          [("limited_casco", ⟨800, 1⟩), ("casco", ⟨400, 1⟩)] 10 =
        .ok [("limited_casco_basic_100", 1), ("casco_basic_100", 0)] := by
  exact ⟨rfl, rfl, by decide, rfl⟩

/-! ### Claim C4: counterexample -/

/-- Counterexample to claim C4 as stated: on this table the repair loop
oscillates, exhausts the default budget of 10 iterations, and returns with
`casco_comfort_100 = 100 < 321 = casco_comfort_200`: for product `casco` and
variant `comfort` the price strictly increases from deductible rank 1 to
rank 2, so it is not a non-increasing function of deductible rank. -/
theorem claim4_cex :
    build_price_items
        [("casco_comfort_100", 100), ("casco_comfort_200", 90), ("casco_basic_200", 300)] =
      .ok [⟨"casco_comfort_100", "casco", some "comfort", some 100⟩,
        ⟨"casco_comfort_200", "casco", some "comfort", some 200⟩,
        ⟨"casco_basic_200", "casco", some "basic", some 200⟩] ∧
    fix_products_inplace
        [⟨"casco_comfort_100", "casco", some "comfort", some 100⟩,
          ⟨"casco_comfort_200", "casco", some "comfort", some 200⟩,
          ⟨"casco_basic_200", "casco", some "basic", some 200⟩]
        [("casco_comfort_100", 100), ("casco_comfort_200", 90), ("casco_basic_200", 300)]
        [] 10 =
      .ok [("casco_comfort_100", 100), ("casco_comfort_200", 321), ("casco_basic_200", 300)] ∧
    get_deductible_rank (some 100) = .ok 1 ∧
    get_deductible_rank (some 200) = .ok 2 ∧
    lookupP [("casco_comfort_100", 100), ("casco_comfort_200", 321), ("casco_basic_200", 300)]
        "casco_comfort_100" = .ok 100 ∧
    lookupP [("casco_comfort_100", 100), ("casco_comfort_200", 321), ("casco_basic_200", 300)]
        "casco_comfort_200" = .ok 321 ∧
    (100 : Int) < 321 := by
  exact ⟨rfl, rfl, rfl, rfl, rfl, rfl, by decide⟩

/-! ### Claim C5: counterexample -/

/-- Counterexample to claim C5 as stated, on `main.py`'s revision: the first
`fix_products_inplace` call exits after 1 of its 10 budgeted iterations (its
CASE 1 rewrote `casco_basic_100` from 70 to 50 without setting `changed`),
yet immediately re-running it on the resulting table mutates
`casco_basic_200` from 60 to 45 — the re-run does not perform zero
mutations. -/
theorem claim5_cex :
    build_price_items
        [("limited_casco_comfort_500", 10), ("casco_basic_100", 70),
          ("casco_basic_200", 60), ("limited_casco_basic_100", 100)] =
      .ok [⟨"limited_casco_comfort_500", "limited_casco", some "comfort", some 500⟩,
        ⟨"casco_basic_100", "casco", some "basic", some 100⟩,
        ⟨"casco_basic_200", "casco", some "basic", some 200⟩,
        ⟨"limited_casco_basic_100", "limited_casco", some "basic", some 100⟩] ∧
    fix_loop_main_run [("limited_casco", ⟨100, 1⟩), ("casco", ⟨50, 1⟩)]
        [⟨"limited_casco_comfort_500", "limited_casco", some "comfort", some 500⟩,
          ⟨"casco_basic_100", "casco", some "basic", some 100⟩,
          ⟨"casco_basic_200", "casco", some "basic", some 200⟩,
          ⟨"limited_casco_basic_100", "limited_casco", some "basic", some 100⟩]
        10
        [("limited_casco_comfort_500", 10), ("casco_basic_100", 70),
          ("casco_basic_200", 60), ("limited_casco_basic_100", 100)] none =
      .ok ([("limited_casco_comfort_500", 10), ("casco_basic_100", 50),
        ("casco_basic_200", 60), ("limited_casco_basic_100", 100)], 1) ∧
    (1 : Nat) < 10 ∧
    fix_products_inplace_main
        [⟨"limited_casco_comfort_500", "limited_casco", some "comfort", some 500⟩,
          ⟨"casco_basic_100", "casco", some "basic", some 100⟩,
          ⟨"casco_basic_200", "casco", some "basic", some 200⟩,
          ⟨"limited_casco_basic_100", "limited_casco", some "basic", some 100⟩]
        [("limited_casco_comfort_500", 10), ("casco_basic_100", 70),
          ("casco_basic_200", 60), ("limited_casco_basic_100", 100)]
        [("limited_casco", ⟨100, 1⟩), ("casco", ⟨50, 1⟩)] 10 =
      .ok [("limited_casco_comfort_500", 10), ("casco_basic_100", 50),
        ("casco_basic_200", 60), ("limited_casco_basic_100", 100)] ∧
    fix_products_inplace_main
        [⟨"limited_casco_comfort_500", "limited_casco", some "comfort", some 500⟩,
          ⟨"casco_basic_100", "casco", some "basic", some 100⟩,
          ⟨"casco_basic_200", "casco", some "basic", some 200⟩,
          ⟨"limited_casco_basic_100", "limited_casco", some "basic", some 100⟩]
        [("limited_casco_comfort_500", 10), ("casco_basic_100", 50),
          ("casco_basic_200", 60), ("limited_casco_basic_100", 100)]
        [("limited_casco", ⟨100, 1⟩), ("casco", ⟨50, 1⟩)] 10 =
      .ok [("limited_casco_comfort_500", 10), ("casco_basic_100", 50),
        ("casco_basic_200", 45), ("limited_casco_basic_100", 100)] ∧
    [("limited_casco_comfort_500", 10), ("casco_basic_100", 50),
        ("casco_basic_200", 45), ("limited_casco_basic_100", 100)] ≠
      [("limited_casco_comfort_500", 10), ("casco_basic_100", 50),
        ("casco_basic_200", 60), ("limited_casco_basic_100", 100)] := by
  exact ⟨rfl, rfl, by decide, rfl, rfl, by decide⟩

/-! ### Claim C2: amended theorem -/

/-- Claim C2 (amended): the outer loop terminates as soon as an iteration's
`changed` flag is false — the result is then that iteration's table, however
many budget iterations remain. (The flag is set only by the scaling/schedule
helpers; as `claim2_cex` shows, the cross-product direct assignment can
modify a price while the flag stays false.) -/
theorem claim2_flag_loop (avg : List (String × Frac)) (items : List PriceElement)
    (prices p : PriceTable) (n : Nat)
    (h : run_iteration avg items prices = .ok (p, false)) :
    fix_products_inplace items prices avg (n + 1) = .ok p := by
  unfold fix_products_inplace fix_loop
  rw [h]
  rfl

/-- Witness for `claim2_flag_loop` at a concrete consistent table. -/
theorem claim2_witness :
    fix_products_inplace
        [⟨"casco_basic_100", "casco", some "basic", some 100⟩,
          ⟨"casco_basic_200", "casco", some "basic", some 200⟩]
        [("casco_basic_100", 100), ("casco_basic_200", 80)] [] 1 =
      .ok [("casco_basic_100", 100), ("casco_basic_200", 80)] :=
  claim2_flag_loop []
    [⟨"casco_basic_100", "casco", some "basic", some 100⟩,
      ⟨"casco_basic_200", "casco", some "basic", some 200⟩]
    [("casco_basic_100", 100), ("casco_basic_200", 80)]
    [("casco_basic_100", 100), ("casco_basic_200", 80)] 0 (by rfl)

/-! ### Claim C5: amended theorem -/

theorem fix_loop_run_le (avg : List (String × Frac)) (items : List PriceElement) :
    ∀ (n : Nat) (prices p : PriceTable) (k : Nat),
      fix_loop_run avg items n prices = .ok (p, k) →
        k ≤ n ∧ fix_loop avg items n prices = .ok p := by
  intro n
  induction n with
  | zero =>
    intro prices p k h
    simp only [fix_loop_run] at h
    injection h with h'
    injection h' with h1 h2
    subst h1; subst h2
    exact ⟨Nat.le_refl 0, rfl⟩
  | succ m ih =>
    intro prices p k h
    simp only [fix_loop_run] at h
    cases hri : run_iteration avg items prices with
    | error e => rw [hri] at h; exact absurd h (by simp [exc_bind_err])
    | ok st =>
      rw [hri] at h
      rw [exc_bind_ok] at h
      obtain ⟨p', ch⟩ := st
      dsimp only at h
      by_cases hch : ch = true
      · subst hch
        simp only [if_pos rfl] at h
        cases hrec : fix_loop_run avg items m p' with
        | error e => rw [hrec] at h; exact absurd h (by simp [exc_bind_err])
        | ok pk =>
          rw [hrec] at h
          rw [exc_bind_ok] at h
          obtain ⟨pf, k'⟩ := pk
          simp only [exc_pure] at h
          injection h with h'
          injection h' with h1 h2
          subst h1; subst h2
          obtain ⟨hk, hfl⟩ := ih p' pf k' hrec
          refine ⟨Nat.succ_le_succ hk, ?_⟩
          simp only [fix_loop]
          rw [hri, exc_bind_ok]
          simpa using hfl
      · replace hch : ch = false := by
          cases ch
          · rfl
          · exact absurd rfl hch
        subst hch
        rw [if_neg (by decide)] at h
        simp only [exc_pure] at h
        injection h with h'
        injection h' with h1 h2
        subst h1; subst h2
        refine ⟨Nat.succ_le_succ (Nat.zero_le m), ?_⟩
        simp only [fix_loop]
        rw [hri, exc_bind_ok]
        simp

theorem fix_loop_main_run_le (avg : List (String × Frac)) (items : List PriceElement) :
    ∀ (n : Nat) (prices p : PriceTable) (flags : Option (Bool × Bool)) (k : Nat),
      fix_loop_main_run avg items n prices flags = .ok (p, k) →
        k ≤ n ∧ fix_loop_main avg items n prices flags = .ok p := by
  intro n
  induction n with
  | zero =>
    intro prices p flags k h
    simp only [fix_loop_main_run] at h
    injection h with h'
    injection h' with h1 h2
    subst h1; subst h2
    exact ⟨Nat.le_refl 0, rfl⟩
  | succ m ih =>
    intro prices p flags k h
    simp only [fix_loop_main_run] at h
    cases hri : run_iteration_main avg items prices flags with
    | error e => rw [hri] at h; exact absurd h (by simp [exc_bind_err])
    | ok st =>
      rw [hri] at h
      rw [exc_bind_ok] at h
      by_cases hch : st.changed = true
      · rw [if_pos hch] at h
        cases hrec : fix_loop_main_run avg items m st.prices st.coreFlags with
        | error e => rw [hrec] at h; exact absurd h (by simp [exc_bind_err])
        | ok pk =>
          rw [hrec] at h
          rw [exc_bind_ok] at h
          obtain ⟨pf, k'⟩ := pk
          simp only [exc_pure] at h
          injection h with h'
          injection h' with h1 h2
          subst h1; subst h2
          obtain ⟨hk, hfl⟩ := ih st.prices pf st.coreFlags k' hrec
          refine ⟨Nat.succ_le_succ hk, ?_⟩
          simp only [fix_loop_main]
          rw [hri, exc_bind_ok, if_pos hch]
          exact hfl
      · rw [if_neg hch] at h
        simp only [exc_pure] at h
        injection h with h'
        injection h' with h1 h2
        subst h1; subst h2
        refine ⟨Nat.succ_le_succ (Nat.zero_le m), ?_⟩
        simp only [fix_loop_main]
        rw [hri, exc_bind_ok, if_neg hch]

/-- Claim C5 (amended): both revisions of `fix_products_inplace` always
terminate and never execute more than `max_iters` iterations of the full
pair-scan loop; the zero-mutation-on-re-run guarantee after an early exit
does not hold (see `claim5_cex`), because the cross-product corrective
actions can modify prices without setting the `changed` flag. -/
theorem claim5_budget_bound :
    (∀ (avg : List (String × Frac)) (items : List PriceElement) (n : Nat)
        (prices p : PriceTable) (k : Nat),
      fix_loop_run avg items n prices = .ok (p, k) →
        k ≤ n ∧ fix_products_inplace items prices avg n = .ok p) ∧
    (∀ (avg : List (String × Frac)) (items : List PriceElement) (n : Nat)
        (prices p : PriceTable) (k : Nat),
      fix_loop_main_run avg items n prices none = .ok (p, k) →
        k ≤ n ∧ fix_products_inplace_main items prices avg n = .ok p) :=
  ⟨fun avg items n prices p k h => fix_loop_run_le avg items n prices p k h,
    fun avg items n prices p k h => fix_loop_main_run_le avg items n prices p none k h⟩

/-- Witness for `claim5_budget_bound` at the oscillating table of
`claim4_cex`: the run uses all 10 iterations of its budget. -/
theorem claim5_witness :
    (10 : Nat) ≤ 10 ∧
      fix_products_inplace
          [⟨"casco_comfort_100", "casco", some "comfort", some 100⟩,
            ⟨"casco_comfort_200", "casco", some "comfort", some 200⟩,
            ⟨"casco_basic_200", "casco", some "basic", some 200⟩]
          [("casco_comfort_100", 100), ("casco_comfort_200", 90), ("casco_basic_200", 300)]
          [] 10 =
        .ok [("casco_comfort_100", 100), ("casco_comfort_200", 321),
          ("casco_basic_200", 300)] :=
  claim5_budget_bound.1 []
    [⟨"casco_comfort_100", "casco", some "comfort", some 100⟩,
      ⟨"casco_comfort_200", "casco", some "comfort", some 200⟩,
      ⟨"casco_basic_200", "casco", some "basic", some 200⟩]
    10
    [("casco_comfort_100", 100), ("casco_comfort_200", 90), ("casco_basic_200", 300)]
    [("casco_comfort_100", 100), ("casco_comfort_200", 321), ("casco_basic_200", 300)]
    10 (by rfl)

/-! ### Claim C8: the detector is read-only -/

theorem detect_pair_table {prices : PriceTable} {a b : PriceElement}
    {r : List String} {p' : PriceTable}
    (h : detect_pair prices a b = .ok (r, p')) : p' = prices := by
  unfold detect_pair at h
  cases hls : detect_pair_lines prices a b with
  | ok ls =>
    rw [hls, exc_bind_ok] at h
    simp only [exc_pure] at h
    injection h with h'
    cases h'
    rfl
  | error e =>
    rw [hls, exc_bind_err] at h
    cases h

theorem detectLines_fold_table :
    ∀ (l : List (PriceElement × PriceElement)) (acc : List String) (prices : PriceTable)
      {r : List String} {p' : PriceTable},
      l.foldlM
          (fun st ab => do
            let (ls, p'') ← detect_pair st.2 ab.1 ab.2
            pure (st.1 ++ ls, p''))
          ((acc, prices) : List String × PriceTable) = .ok (r, p') →
      p' = prices := by
  intro l
  induction l with
  | nil =>
    intro acc prices r p' h
    simp only [List.foldlM_nil] at h
    simp only [exc_pure] at h
    injection h with h'
    cases h'
    rfl
  | cons hd tl ih =>
    intro acc prices r p' h
    simp only [List.foldlM_cons] at h
    cases hdp : detect_pair prices hd.1 hd.2 with
    | error e =>
      rw [hdp, exc_bind_err] at h
      cases h
    | ok lsp =>
      obtain ⟨ls, p2⟩ := lsp
      have hp2 : p2 = prices := detect_pair_table hdp
      rw [hdp] at h
      rw [exc_bind_ok] at h
      simp only [exc_pure] at h
      rw [hp2] at h
      exact ih (acc ++ ls) prices h

/-- Claim C8: `detect_inconsistencies` is read-only on the price table: any
successful call hands back exactly the table it was given (the `PriceElement`
list is never written to by any step of the embedding, so it is unchanged by
construction). -/
theorem claim8_detect_readonly (items : List PriceElement) (prices : PriceTable)
    (r : String) (p' : PriceTable)
    (h : detect_inconsistencies items prices = .ok (r, p')) : p' = prices := by
  unfold detect_inconsistencies at h
  cases hdl : detectLines items prices with
  | error e =>
    rw [hdl, exc_bind_err] at h
    cases h
  | ok lsp =>
    obtain ⟨ls, pt⟩ := lsp
    have hpt : pt = prices := by
      unfold detectLines at hdl
      exact detectLines_fold_table (allPairs items) [] prices hdl
    rw [hdl, exc_bind_ok] at h
    simp only [exc_pure] at h
    injection h with h'
    cases h'
    exact hpt

/-- Witness for `claim8_detect_readonly` at the table of scenario 1. -/
theorem claim8_witness :
    ([("limited_casco_basic_100", 900), ("limited_casco_comfort_100", 850)] : PriceTable) =
      [("limited_casco_basic_100", 900), ("limited_casco_comfort_100", 850)] :=
  claim8_detect_readonly
    [⟨"limited_casco_basic_100", "limited_casco", some "basic", some 100⟩,
      ⟨"limited_casco_comfort_100", "limited_casco", some "comfort", some 100⟩]
    [("limited_casco_basic_100", 900), ("limited_casco_comfort_100", 850)]
    "VARIANT ORDER: 'limited_casco_basic_100' (900) should be cheaper than 'limited_casco_comfort_100' (850)."
    [("limited_casco_basic_100", 900), ("limited_casco_comfort_100", 850)]
    (by rfl)

/-! ### Claim C9: the repair never adds or removes price-table entries -/

theorem keys_setP (p : PriceTable) (k : String) (v : Int) :
    (setP p k v).map Prod.fst = p.map Prod.fst := by
  unfold setP
  rw [List.map_map]
  apply List.map_congr_left
  intro kv _
  simp only [Function.comp_apply]
  split <;> rfl

/-- A `foldlM` over `Except` preserves any invariant its step preserves. -/
theorem foldlM_preserves {α σ : Type} (P : σ → Prop) (f : σ → α → Except String σ)
    (hf : ∀ s x s', P s → f s x = .ok s' → P s') :
    ∀ (l : List α) (s s' : σ), P s → l.foldlM f s = .ok s' → P s' := by
  intro l
  induction l with
  | nil =>
    intro s s' hs h
    simp only [List.foldlM_nil] at h
    simp only [exc_pure] at h
    injection h with h'
    exact h' ▸ hs
  | cons hd tl ih =>
    intro s s' hs h
    simp only [List.foldlM_cons] at h
    cases hstep : f s hd with
    | error e => rw [hstep, exc_bind_err] at h; cases h
    | ok s1 =>
      rw [hstep, exc_bind_ok] at h
      exact ih s1 s' (hf s hd s1 hs hstep) h

theorem scale_product_keys {items : List PriceElement} {p : PriceTable}
    {prod : String} {f : Frac} {p' : PriceTable} {c : Bool}
    (h : scale_product items p prod f = .ok (p', c)) :
    p'.map Prod.fst = p.map Prod.fst := by
  unfold scale_product at h
  refine foldlM_preserves (fun st => st.1.map Prod.fst = p.map Prod.fst) _ ?_
    items (p, false) (p', c) rfl h
  intro s x s' hs hstep
  dsimp only at hstep
  by_cases hx : (x.product == prod) = true
  · rw [if_pos hx] at hstep
    cases hl : lookupP s.1 x.key with
    | error e => rw [hl, exc_bind_err] at hstep; cases hstep
    | ok v =>
      rw [hl, exc_bind_ok] at hstep
      split at hstep <;>
        (simp only [exc_pure] at hstep; injection hstep with h'; subst h')
      · simpa [keys_setP] using hs
      · exact hs
  · rw [if_neg hx] at hstep
    simp only [exc_pure] at hstep
    injection hstep with h'
    subst h'
    exact hs

theorem apply_deductible_schedule_keys {group : List PriceElement} {p : PriceTable}
    {base : Int} {p' : PriceTable} {c : Bool}
    (h : apply_deductible_schedule group p base = .ok (p', c)) :
    p'.map Prod.fst = p.map Prod.fst := by
  unfold apply_deductible_schedule at h
  refine foldlM_preserves (fun st => st.1.map Prod.fst = p.map Prod.fst) _ ?_
    group (p, false) (p', c) rfl h
  intro s x s' hs hstep
  dsimp only at hstep
  cases hr : get_deductible_rank x.deductible with
  | error e => rw [hr, exc_bind_err] at hstep; cases hstep
  | ok r =>
    rw [hr, exc_bind_ok] at hstep
    cases hl : lookupP s.1 x.key with
    | error e => rw [hl, exc_bind_err] at hstep; cases hstep
    | ok v =>
      rw [hl, exc_bind_ok] at hstep
      split at hstep <;>
        (simp only [exc_pure] at hstep; injection hstep with h'; subst h')
      · simpa [keys_setP] using hs
      · exact hs

theorem apply_variant_schedule_keys {group : List PriceElement} {p : PriceTable}
    {base : Int} {p' : PriceTable} {c : Bool}
    (h : apply_variant_schedule group p base = .ok (p', c)) :
    p'.map Prod.fst = p.map Prod.fst := by
  unfold apply_variant_schedule at h
  refine foldlM_preserves (fun st => st.1.map Prod.fst = p.map Prod.fst) _ ?_
    group (p, false) (p', c) rfl h
  intro s x s' hs hstep
  dsimp only at hstep
  cases hr : get_variant_rank x.variant with
  | error e => rw [hr, exc_bind_err] at hstep; cases hstep
  | ok r =>
    rw [hr, exc_bind_ok] at hstep
    cases hl : lookupP s.1 x.key with
    | error e => rw [hl, exc_bind_err] at hstep; cases hstep
    | ok v =>
      rw [hl, exc_bind_ok] at hstep
      split at hstep <;>
        (simp only [exc_pure] at hstep; injection hstep with h'; subst h')
      · simpa [keys_setP] using hs
      · exact hs

theorem cross_same_tier_action_keys {items : List PriceElement} {p : PriceTable}
    {ch : Bool} {lower higher : PriceElement} {lp : Int} {ratio : Frac}
    {st' : PriceTable × Bool}
    (h : cross_same_tier_action items p ch lower higher lp ratio = .ok st') :
    st'.1.map Prod.fst = p.map Prod.fst := by
  unfold cross_same_tier_action at h
  split at h
  · cases hl : lookupP p higher.key with
    | error e => rw [hl, exc_bind_err] at h; cases h
    | ok old_h =>
      rw [hl, exc_bind_ok] at h
      split at h
      · dsimp only at h
        cases hs : scale_product items (setP p higher.key
            (pyround ((Frac.ofInt lp).mul ratio))) higher.product
            ((Frac.ofInt (pyround ((Frac.ofInt lp).mul ratio))).div (Frac.ofInt old_h)) with
        | error e => rw [hs, exc_bind_err] at h; cases h
        | ok pc =>
          rw [hs, exc_bind_ok] at h
          simp only [exc_pure] at h
          injection h with h'
          subst h'
          simpa [keys_setP] using scale_product_keys hs
      · simp only [exc_pure] at h
        injection h with h'
        subst h'
        rfl
  · simp only [exc_pure] at h
    injection h with h'
    subst h'
    rfl

theorem core_anchor_action_keys {items : List PriceElement} {st1 : PriceTable × Bool}
    {lower higher : PriceElement} {lp : Int} {ratio : Frac}
    {st' : PriceTable × Bool}
    (h : core_anchor_action items st1 lower higher lp ratio = .ok st') :
    st'.1.map Prod.fst = st1.1.map Prod.fst := by
  unfold core_anchor_action at h
  split at h
  · cases hm : min_price_in_group items st1.1 (fun it => pure (it.product == higher.product)) with
    | error e => rw [hm, exc_bind_err] at h; cases h
    | ok om =>
      rw [hm, exc_bind_ok] at h
      cases om with
      | none =>
        simp only [exc_pure] at h
        injection h with h'
        subst h'
        rfl
      | some m =>
        dsimp only at h
        split at h
        · cases hs : scale_product items st1.1 higher.product
              ((Frac.ofInt (pyround ((Frac.ofInt lp).mul ratio))).div (Frac.ofInt m)) with
          | error e => rw [hs, exc_bind_err] at h; cases h
          | ok pc =>
            rw [hs, exc_bind_ok] at h
            simp only [exc_pure] at h
            injection h with h'
            subst h'
            exact scale_product_keys hs
        · simp only [exc_pure] at h
          injection h with h'
          subst h'
          rfl
  · simp only [exc_pure] at h
    injection h with h'
    subst h'
    rfl

theorem deductible_fire_keys {items : List PriceElement} {p : PriceTable}
    {ch : Bool} {a ld hd : PriceElement} {st' : PriceTable × Bool}
    (h : deductible_fire items p ch a ld hd = .ok st') :
    st'.1.map Prod.fst = p.map Prod.fst := by
  unfold deductible_fire at h
  split at h <;> try cases h
  split at h
  · dsimp only at h
    cases hb : max_price_in_group
        (group_items items (fun it => it.product == a.product &&
          !is_core_product it.product && it.variant == a.variant)) p
        (fun it => do pure ((← get_deductible_rank it.deductible) == 1)) with
    | error e => rw [hb, exc_bind_err] at h; cases h
    | ok base =>
      rw [hb, exc_bind_ok] at h
      cases base with
      | none =>
        simp only [exc_pure] at h
        injection h with h'
        subst h'
        rfl
      | some bv =>
        dsimp only at h
        cases hs : apply_deductible_schedule
            (group_items items (fun it => it.product == a.product &&
              !is_core_product it.product && it.variant == a.variant)) p bv with
        | error e => rw [hs, exc_bind_err] at h; cases h
        | ok pc =>
          rw [hs, exc_bind_ok] at h
          simp only [exc_pure] at h
          injection h with h'
          subst h'
          exact apply_deductible_schedule_keys hs
  · simp only [exc_pure] at h
    injection h with h'
    subst h'
    rfl

theorem deductible_action_keys {items : List PriceElement} {p : PriceTable}
    {ch : Bool} {a b : PriceElement} {dav dbv : Int} {st' : PriceTable × Bool}
    (h : deductible_action items p ch a b dav dbv = .ok st') :
    st'.1.map Prod.fst = p.map Prod.fst := by
  unfold deductible_action at h
  split at h
  · exact deductible_fire_keys h
  · exact deductible_fire_keys h

theorem variant_fire_keys {items : List PriceElement} {p : PriceTable}
    {ch : Bool} {a lv hv : PriceElement} {st' : PriceTable × Bool}
    (h : variant_fire items p ch a lv hv = .ok st') :
    st'.1.map Prod.fst = p.map Prod.fst := by
  unfold variant_fire at h
  split at h <;> try cases h
  split at h
  · dsimp only at h
    cases hb : max_price_in_group
        (group_items items (fun it => it.product == a.product &&
          !is_core_product it.product && it.deductible == a.deductible)) p
        (fun it => do pure ((← get_variant_rank it.variant) == 1)) with
    | error e => rw [hb, exc_bind_err] at h; cases h
    | ok base =>
      rw [hb, exc_bind_ok] at h
      cases base with
      | none =>
        simp only [exc_pure] at h
        injection h with h'
        subst h'
        rfl
      | some bv =>
        dsimp only at h
        cases hs : apply_variant_schedule
            (group_items items (fun it => it.product == a.product &&
              !is_core_product it.product && it.deductible == a.deductible)) p bv with
        | error e => rw [hs, exc_bind_err] at h; cases h
        | ok pc =>
          rw [hs, exc_bind_ok] at h
          simp only [exc_pure] at h
          injection h with h'
          subst h'
          exact apply_variant_schedule_keys hs
  · simp only [exc_pure] at h
    injection h with h'
    subst h'
    rfl

theorem variant_action_keys {items : List PriceElement} {p : PriceTable}
    {ch : Bool} {a b : PriceElement} {vav vbv : Int} {st' : PriceTable × Bool}
    (h : variant_action items p ch a b vav vbv = .ok st') :
    st'.1.map Prod.fst = p.map Prod.fst := by
  unfold variant_action at h
  split at h
  · exact variant_fire_keys h
  · exact variant_fire_keys h

theorem processPairCore_keys {avg : List (String × Frac)} {items : List PriceElement}
    {st st' : PriceTable × Bool} {a b : PriceElement} {pa pb : Int}
    {va vb da db : Option Int}
    (h : processPairCore avg items st a b pa pb va vb da db = .ok st') :
    st'.1.map Prod.fst = st.1.map Prod.fst := by
  unfold processPairCore at h
  dsimp only at h
  cases hqa : lookupP st.1 a.key with
  | error e => rw [hqa, exc_bind_err] at h; cases h
  | ok qa =>
  rw [hqa, exc_bind_ok] at h
  cases hqb : lookupP st.1 b.key with
  | error e => rw [hqb, exc_bind_err] at h; cases h
  | ok qb =>
  rw [hqb, exc_bind_ok] at h
  by_cases hne : pa ≠ pb
  · rw [if_pos hne] at h
    cases hql : lookupP st.1 (order_by_rank a b pa pb).1.key with
    | error e =>
      cases hqh : lookupP st.1 (order_by_rank a b pa pb).2.key with
      | error e2 => rw [hql, hqh] at h; dsimp only at h; cases h
      | ok hp => rw [hql, hqh] at h; dsimp only at h; cases h
    | ok lp =>
      cases hqh : lookupP st.1 (order_by_rank a b pa pb).2.key with
      | error e2 => rw [hql, hqh] at h; dsimp only at h; cases h
      | ok hp =>
        rw [hql, hqh] at h
        dsimp only at h
        cases havl : avgGet avg (order_by_rank a b pa pb).1.product with
        | none =>
          cases havh : avgGet avg (order_by_rank a b pa pb).2.product with
          | none =>
            rw [havl, havh] at h
            dsimp only [exc_pure] at h
            injection h with h'
            subst h'
            rfl
          | some f =>
            rw [havl, havh] at h
            dsimp only [exc_pure] at h
            injection h with h'
            subst h'
            rfl
        | some avl =>
          cases havh : avgGet avg (order_by_rank a b pa pb).2.product with
          | none =>
            rw [havl, havh] at h
            dsimp only [exc_pure] at h
            injection h with h'
            subst h'
            rfl
          | some avh =>
            rw [havl, havh] at h
            dsimp only at h
            split at h
            · simp only [exc_pure] at h
              injection h with h'
              subst h'
              rfl
            · split at h
              · cases hca : cross_same_tier_action items st.1 st.2
                    (order_by_rank a b pa pb).1 (order_by_rank a b pa pb).2 lp
                    (Frac.div avh avl) with
                | error e => rw [hca, exc_bind_err] at h; cases h
                | ok st1 =>
                  rw [hca, exc_bind_ok] at h
                  exact (core_anchor_action_keys h).trans (cross_same_tier_action_keys hca)
              · simp only [exc_pure] at h
                injection h with h'
                subst h'
                rfl
  · rw [if_neg hne] at h
    by_cases hg1 : (¬is_core_product a.product = true ∧ ¬is_core_product b.product = true ∧
        va = vb ∧ da ≠ db)
    · rw [if_pos hg1] at h
      cases hdact : deductible_action items st.1 st.2 a b (da.getD 0) (db.getD 0) with
      | error e => rw [hdact, exc_bind_err] at h; cases h
      | ok st1 =>
        rw [hdact, exc_bind_ok] at h
        by_cases hg2 : (¬is_core_product a.product = true ∧ ¬is_core_product b.product = true ∧
            da = db ∧ va ≠ vb)
        · rw [if_pos hg2] at h
          exact (variant_action_keys h).trans (deductible_action_keys hdact)
        · rw [if_neg hg2] at h
          simp only [exc_pure] at h
          injection h with h'
          subst h'
          exact deductible_action_keys hdact
    · rw [if_neg hg1] at h
      rw [exc_pure, exc_bind_ok] at h
      by_cases hg2 : (¬is_core_product a.product = true ∧ ¬is_core_product b.product = true ∧
          da = db ∧ va ≠ vb)
      · rw [if_pos hg2] at h
        dsimp only at h
        exact variant_action_keys h
      · rw [if_neg hg2] at h
        simp only [exc_pure] at h
        injection h with h'
        subst h'
        rfl

theorem processPair_keys {avg : List (String × Frac)} {items : List PriceElement}
    {st st' : PriceTable × Bool} {a b : PriceElement}
    (h : processPair avg items st a b = .ok st') :
    st'.1.map Prod.fst = st.1.map Prod.fst := by
  unfold processPair at h
  dsimp only at h
  cases h1 : get_product_rank a.product with
  | error e => rw [h1, exc_bind_err] at h; cases h
  | ok pa =>
  rw [h1, exc_bind_ok] at h
  cases h2 : get_product_rank b.product with
  | error e => rw [h2, exc_bind_err] at h; cases h
  | ok pb =>
  rw [h2, exc_bind_ok] at h
  by_cases hac : is_core_product a.product = true
  all_goals by_cases hbc : is_core_product b.product = true
  all_goals simp only [hac, hbc, if_true, if_false, exc_pure, exc_bind_ok, exc_bind_err,
    Bool.not_eq_true, if_pos, if_neg] at h
  · exact processPairCore_keys h
  · cases hv : get_variant_rank b.variant with
    | error e => rw [hv, exc_bind_err] at h; cases h
    | ok rv =>
    rw [hv, exc_bind_ok] at h
    cases hd : get_deductible_rank b.deductible with
    | error e => rw [hd] at h; simp only [exc_bind_err] at h; cases h
    | ok rd =>
    rw [hd] at h
    simp only [exc_pure, exc_bind_ok] at h
    exact processPairCore_keys h
  · cases hv : get_variant_rank a.variant with
    | error e => rw [hv, exc_bind_err] at h; cases h
    | ok rv =>
    rw [hv, exc_bind_ok] at h
    cases hd : get_deductible_rank a.deductible with
    | error e => rw [hd] at h; simp only [exc_bind_err] at h; cases h
    | ok rd =>
    rw [hd] at h
    simp only [exc_pure, exc_bind_ok] at h
    exact processPairCore_keys h
  · cases hva : get_variant_rank a.variant with
    | error e => rw [hva, exc_bind_err] at h; cases h
    | ok rva =>
    rw [hva, exc_bind_ok] at h
    cases hvb : get_variant_rank b.variant with
    | error e => rw [hvb] at h; simp only [exc_bind_err] at h; cases h
    | ok rvb =>
    rw [hvb] at h
    simp only [exc_pure, exc_bind_ok] at h
    cases hdb : get_deductible_rank a.deductible with
    | error e => rw [hdb] at h; simp only [exc_bind_err] at h; cases h
    | ok rda =>
    rw [hdb] at h
    simp only [exc_pure, exc_bind_ok] at h
    cases hdd : get_deductible_rank b.deductible with
    | error e => rw [hdd] at h; simp only [exc_bind_err] at h; cases h
    | ok rdb =>
    rw [hdd] at h
    simp only [exc_pure, exc_bind_ok] at h
    exact processPairCore_keys h

theorem run_iteration_keys {avg : List (String × Frac)} {items : List PriceElement}
    {prices p' : PriceTable} {c : Bool}
    (h : run_iteration avg items prices = .ok (p', c)) :
    p'.map Prod.fst = prices.map Prod.fst := by
  unfold run_iteration at h
  exact foldlM_preserves (fun st => st.1.map Prod.fst = prices.map Prod.fst) _
    (fun s x s' hs hstep => (processPair_keys hstep).trans hs)
    (allPairs items) (prices, false) (p', c) rfl h

theorem fix_loop_keys (avg : List (String × Frac)) (items : List PriceElement) :
    ∀ (n : Nat) (prices p' : PriceTable),
      fix_loop avg items n prices = .ok p' →
      p'.map Prod.fst = prices.map Prod.fst := by
  intro n
  induction n with
  | zero =>
    intro prices p' h
    simp only [fix_loop] at h
    injection h with h'
    subst h'
    rfl
  | succ m ih =>
    intro prices p' h
    simp only [fix_loop] at h
    cases hri : run_iteration avg items prices with
    | error e => rw [hri, exc_bind_err] at h; cases h
    | ok st =>
      rw [hri, exc_bind_ok] at h
      obtain ⟨p1, ch⟩ := st
      dsimp only at h
      by_cases hch : ch = true
      · rw [if_pos hch] at h
        exact (ih p1 p' h).trans (run_iteration_keys hri)
      · rw [if_neg hch] at h
        injection h with h'
        subst h'
        exact run_iteration_keys hri

/-- Claim C9: a successful `fix_products_inplace` call never adds or removes
price-table entries: the ordered key list of the resulting table is exactly
that of the input table (only the integer values may change). -/
theorem claim9_key_set_preserved (items : List PriceElement) (prices : PriceTable)
    (avg : List (String × Frac)) (n : Nat) (p' : PriceTable)
    (h : fix_products_inplace items prices avg n = .ok p') :
    p'.map Prod.fst = prices.map Prod.fst :=
  fix_loop_keys avg items n prices p' h

/-- Witness for `claim9_key_set_preserved` at the table of `claim2_cex`,
whose repair rewrites a value. -/
theorem claim9_witness :
    ([("limited_casco_basic_100", 1), ("casco_basic_100", 0)] : PriceTable).map Prod.fst =
      ([("limited_casco_basic_100", 1), ("casco_basic_100", 1)] : PriceTable).map Prod.fst :=
  claim9_key_set_preserved
    [⟨"limited_casco_basic_100", "limited_casco", some "basic", some 100⟩,
      ⟨"casco_basic_100", "casco", some "basic", some 100⟩]
    [("limited_casco_basic_100", 1), ("casco_basic_100", 1)]
    [("limited_casco", ⟨800, 1⟩), ("casco", ⟨400, 1⟩)] 10
    [("limited_casco_basic_100", 1), ("casco_basic_100", 0)] (by rfl)

/-! ### Claim C1: a missing or zero average-price anchor skips the pair -/

theorem processPairCore_skips (avg : List (String × Frac)) (items : List PriceElement)
    (prices : PriceTable) (changed : Bool) (a b : PriceElement) (pa pb : Int)
    (va vb da db : Option Int) (qa qb : Int)
    (hne : pa ≠ pb)
    (hka : lookupP prices a.key = .ok qa)
    (hkb : lookupP prices b.key = .ok qb)
    (havg : avgGet avg (order_by_rank a b pa pb).1.product = none ∨
            avgGet avg (order_by_rank a b pa pb).2.product = none ∨
            ∃ f, avgGet avg (order_by_rank a b pa pb).1.product = some f ∧
              f.isZero = true) :
    processPairCore avg items (prices, changed) a b pa pb va vb da db =
      .ok (prices, changed) := by
  unfold processPairCore
  dsimp only
  rw [hka, exc_bind_ok, hkb, exc_bind_ok]
  rw [if_pos hne]
  unfold order_by_rank at havg ⊢
  by_cases hlt : pa < pb
  · rw [if_pos hlt] at havg ⊢
    dsimp only at havg ⊢
    rw [hka, hkb]
    dsimp only
    rcases havg with hl | hh | ⟨f, hf, hz⟩
    · rw [hl]
      cases hh : avgGet avg b.product <;> rfl
    · rw [hh]
      cases hl : avgGet avg a.product <;> rfl
    · rw [hf]
      cases hh : avgGet avg b.product with
      | none => rfl
      | some g =>
        dsimp only
        rw [if_pos hz]
        rfl
  · rw [if_neg hlt] at havg ⊢
    dsimp only at havg ⊢
    rw [hkb, hka]
    dsimp only
    rcases havg with hl | hh | ⟨f, hf, hz⟩
    · rw [hl]
      cases hh : avgGet avg a.product <;> rfl
    · rw [hh]
      cases hl : avgGet avg b.product <;> rfl
    · rw [hf]
      cases hh : avgGet avg a.product with
      | none => rfl
      | some g =>
        dsimp only
        rw [if_pos hz]
        rfl

/-- Claim C1: for a pair with differing product ranks, when the average-price
table lacks an entry for the lower- or higher-ranked element's product, or the
scaling denominator (the lower-ranked product's average price) is zero, the
guarded revision's pair body performs no corrective action: it returns the
running `(prices, changed)` state unchanged and raises nothing, so the pair
scan continues with the next pair. -/
theorem claim1_missing_avg_skips (avg : List (String × Frac))
    (items : List PriceElement) (prices : PriceTable) (changed : Bool)
    (a b : PriceElement) (pa pb qa qb : Int)
    (hpa : get_product_rank a.product = .ok pa)
    (hpb : get_product_rank b.product = .ok pb)
    (hne : pa ≠ pb)
    (hra : ranks_ok a = true) (hrb : ranks_ok b = true)
    (hka : lookupP prices a.key = .ok qa)
    (hkb : lookupP prices b.key = .ok qb)
    (havg : avgGet avg (order_by_rank a b pa pb).1.product = none ∨
            avgGet avg (order_by_rank a b pa pb).2.product = none ∨
            ∃ f, avgGet avg (order_by_rank a b pa pb).1.product = some f ∧
              f.isZero = true) :
    processPair avg items (prices, changed) a b = .ok (prices, changed) := by
  unfold processPair
  dsimp only
  rw [hpa, exc_bind_ok, hpb, exc_bind_ok]
  by_cases hac : is_core_product a.product = true
  all_goals by_cases hbc : is_core_product b.product = true
  all_goals simp only [ranks_ok, hac, hbc, Bool.true_or, Bool.false_or, Bool.and_eq_true,
    Bool.or_eq_true] at hra hrb
  all_goals simp only [hac, hbc, if_true, if_false, exc_pure, exc_bind_ok]
  · exact processPairCore_skips avg items prices changed a b pa pb none none none none
      qa qb hne hka hkb havg
  · obtain ⟨rvb, hrvb⟩ := isOkE_exists hrb.2.1
    obtain ⟨rdb, hrdb⟩ := isOkE_exists hrb.2.2
    rw [hrvb, exc_bind_ok, hrdb]
    simp only [exc_pure, exc_bind_ok]
    exact processPairCore_skips avg items prices changed a b pa pb none (some rvb)
      none (some rdb) qa qb hne hka hkb havg
  · obtain ⟨rva, hrva⟩ := isOkE_exists hra.2.1
    obtain ⟨rda, hrda⟩ := isOkE_exists hra.2.2
    rw [hrva, exc_bind_ok, hrda]
    simp only [exc_pure, exc_bind_ok]
    exact processPairCore_skips avg items prices changed a b pa pb (some rva) none
      (some rda) none qa qb hne hka hkb havg
  · obtain ⟨rva, hrva⟩ := isOkE_exists hra.2.1
    obtain ⟨rda, hrda⟩ := isOkE_exists hra.2.2
    obtain ⟨rvb, hrvb⟩ := isOkE_exists hrb.2.1
    obtain ⟨rdb, hrdb⟩ := isOkE_exists hrb.2.2
    rw [hrva, exc_bind_ok]
    rw [hrvb]
    simp only [exc_pure, exc_bind_ok]
    rw [hrda]
    simp only [exc_pure, exc_bind_ok]
    rw [hrdb]
    simp only [exc_pure, exc_bind_ok]
    exact processPairCore_skips avg items prices changed a b pa pb (some rva) (some rvb)
      (some rda) (some rdb) qa qb hne hka hkb havg

/-- Witness for `claim1_missing_avg_skips`: an empty average-price table
skips the cross-product pair and changes nothing. -/
theorem claim1_witness :
    processPair []
        [⟨"limited_casco_basic_100", "limited_casco", some "basic", some 100⟩,
          ⟨"casco_basic_100", "casco", some "basic", some 100⟩]
        ([("limited_casco_basic_100", 1), ("casco_basic_100", 1)], false)
        ⟨"limited_casco_basic_100", "limited_casco", some "basic", some 100⟩
        ⟨"casco_basic_100", "casco", some "basic", some 100⟩ =
      .ok ([("limited_casco_basic_100", 1), ("casco_basic_100", 1)], false) :=
  claim1_missing_avg_skips []
    [⟨"limited_casco_basic_100", "limited_casco", some "basic", some 100⟩,
      ⟨"casco_basic_100", "casco", some "basic", some 100⟩]
    [("limited_casco_basic_100", 1), ("casco_basic_100", 1)] false
    ⟨"limited_casco_basic_100", "limited_casco", some "basic", some 100⟩
    ⟨"casco_basic_100", "casco", some "basic", some 100⟩
    2 3 1 1 (by rfl) (by rfl) (by decide) (by rfl) (by rfl) (by rfl) (by rfl)
    (Or.inl (by rfl))

/-! ### Claim C7: amended round-trip theorem -/

theorem stringDataExt {a b : String} (h : a.data = b.data) : a = b := by
  cases a with
  | mk la =>
    cases b with
    | mk lb => exact congrArg String.mk (by simpa using h)

theorem splitChars_ne_nil (sep : Char) (cs : List Char) : splitChars sep cs ≠ [] := by
  cases cs with
  | nil => simp [splitChars]
  | cons c rest =>
    simp only [splitChars]
    cases hs : splitChars sep rest with
    | nil => simp
    | cons h t => by_cases hc : c = sep <;> simp [hc]

theorem pyJoin_cons_cons (sep a b : String) (t : List String) :
    pyJoin sep (a :: b :: t) = a ++ sep ++ pyJoin sep (b :: t) := rfl

theorem pyJoin_splitChars (sep : Char) (cs : List Char) :
    pyJoin ⟨[sep]⟩ ((splitChars sep cs).map (fun l => (⟨l⟩ : String))) = ⟨cs⟩ := by
  induction cs with
  | nil => rfl
  | cons c rest ih =>
    cases hs : splitChars sep rest with
    | nil => exact absurd hs (splitChars_ne_nil sep rest)
    | cons h t =>
      rw [hs] at ih
      simp only [List.map_cons] at ih
      simp only [splitChars, hs]
      by_cases hc : c = sep
      · rw [if_pos hc]
        simp only [List.map_cons]
        rw [pyJoin_cons_cons]
        apply stringDataExt
        have hdata := congrArg String.data ih
        simp only [String.data_append] at hdata ⊢
        show [] ++ [sep] ++ _ = c :: rest
        rw [List.nil_append, hc]
        rw [List.singleton_append]
        exact congrArg (sep :: ·) hdata
      · rw [if_neg hc]
        simp only [List.map_cons]
        cases t with
        | nil =>
          simp only [List.map_nil] at ih ⊢
          have hh : h = rest := congrArg String.data ih
          show (⟨c :: h⟩ : String) = ⟨c :: rest⟩
          rw [hh]
        | cons t0 ts =>
          simp only [List.map_cons] at ih ⊢
          rw [pyJoin_cons_cons] at ih ⊢
          apply stringDataExt
          have hdata := congrArg String.data ih
          simp only [String.data_append] at hdata ⊢
          show (c :: h) ++ [sep] ++ _ = c :: rest
          rw [List.cons_append, List.cons_append]
          exact congrArg (c :: ·) hdata

theorem pyJoin_pySplit (s : String) (sep : Char) :
    pyJoin ⟨[sep]⟩ (pySplit s sep) = s := by
  cases s with
  | mk cs => exact pyJoin_splitChars sep cs

/-- Claim C7 (amended): for every key `parse_price_key` accepts, the returned
element is consistent with splitting the key on `"_"` (its fields are exactly
the split tokens, the deductible token parsed as an integer), and re-joining
product, variant and the deductible's decimal rendering with `"_"` reproduces
the original key provided the deductible token is the canonical rendering of
its value (`claim7_cex` shows a non-canonical token such as `"007"` breaks
the round trip). -/
theorem claim7_round_trip (key : String) (e : PriceElement)
    (h : parse_price_key key = .ok e) :
    e.key = key ∧
    ∃ v dtok dval,
      e.variant = some v ∧ e.deductible = some dval ∧ pyInt dtok = some dval ∧
      ((pySplit key '_' = ["limited", "casco", v, dtok] ∧ e.product = "limited_casco") ∨
        pySplit key '_' = [e.product, v, dtok]) ∧
      (dtok = toString dval →
        e.product ++ "_" ++ v ++ "_" ++ toString dval = key) := by
  unfold parse_price_key at h
  split at h
  case h_1 v dtok heq =>
    split at h
    case h_1 d hd =>
      injection h with h'
      subst h'
      refine ⟨rfl, v, dtok, d, rfl, rfl, hd, Or.inl ⟨heq, rfl⟩, ?_⟩
      intro hcanon
      subst hcanon
      have hj := pyJoin_pySplit key '_'
      rw [heq] at hj
      rw [← hj]
      apply stringDataExt
      rw [pyJoin_cons_cons, pyJoin_cons_cons, pyJoin_cons_cons]
      show _ = (("limited" ++ _ ++ (("casco" ++ _ ++ ((v ++ _ ++ pyJoin _ [toString d]))))) : String).data
      have hlc : ("limited_casco" : String).data =
          "limited".data ++ ("_".data ++ "casco".data) := by decide
      simp only [String.data_append, List.append_assoc, hlc]
      rfl
    case h_2 hd =>
      cases h
  case h_2 p v dtok heq =>
    split at h
    case h_1 d hd =>
      injection h with h'
      subst h'
      refine ⟨rfl, v, dtok, d, rfl, rfl, hd, Or.inr heq, ?_⟩
      intro hcanon
      subst hcanon
      have hj := pyJoin_pySplit key '_'
      rw [heq] at hj
      rw [← hj]
      apply stringDataExt
      rw [pyJoin_cons_cons, pyJoin_cons_cons]
      simp only [String.data_append, List.append_assoc]
      rfl
    case h_2 hd =>
      cases h
  case h_3 =>
    cases h

/-- Witness for `claim7_round_trip` at the key `"limited_casco_basic_100"`. -/
theorem claim7_witness :
    (⟨"limited_casco_basic_100", "limited_casco", some "basic", some 100⟩ :
        PriceElement).key = "limited_casco_basic_100" ∧
    ∃ v dtok dval,
      (⟨"limited_casco_basic_100", "limited_casco", some "basic", some 100⟩ :
          PriceElement).variant = some v ∧
      (⟨"limited_casco_basic_100", "limited_casco", some "basic", some 100⟩ :
          PriceElement).deductible = some dval ∧
      pyInt dtok = some dval ∧
      ((pySplit "limited_casco_basic_100" '_' = ["limited", "casco", v, dtok] ∧
          (⟨"limited_casco_basic_100", "limited_casco", some "basic", some 100⟩ :
            PriceElement).product = "limited_casco") ∨
        pySplit "limited_casco_basic_100" '_' =
          [(⟨"limited_casco_basic_100", "limited_casco", some "basic", some 100⟩ :
            PriceElement).product, v, dtok]) ∧
      (dtok = toString dval →
        (⟨"limited_casco_basic_100", "limited_casco", some "basic", some 100⟩ :
            PriceElement).product ++ "_" ++ v ++ "_" ++ toString dval =
          "limited_casco_basic_100") :=
  claim7_round_trip "limited_casco_basic_100"
    ⟨"limited_casco_basic_100", "limited_casco", some "basic", some 100⟩ (by rfl)

/-! ### Claim C4: amended theorem. Python's round, on `ℚ`, and its
monotonicity; the schedules assign monotone price curves. -/

/-- Round half to even on `ℚ`, the specification-level counterpart of
`pyround`. -/
def pyroundQ (q : ℚ) : Int :=
  if q - ⌊q⌋ < 1/2 then ⌊q⌋
  else if (1:ℚ)/2 < q - ⌊q⌋ then ⌊q⌋ + 1
  else if ⌊q⌋ % 2 = 0 then ⌊q⌋ else ⌊q⌋ + 1

theorem pyroundQ_ge_floor (q : ℚ) : ⌊q⌋ ≤ pyroundQ q := by
  unfold pyroundQ
  split
  · omega
  · split
    · omega
    · split <;> omega

theorem pyroundQ_le_succ (q : ℚ) : pyroundQ q ≤ ⌊q⌋ + 1 := by
  unfold pyroundQ
  split
  · omega
  · split
    · omega
    · split <;> omega

theorem pyroundQ_eq_floor_of_lt {q : ℚ} (h : q - ⌊q⌋ < 1/2) : pyroundQ q = ⌊q⌋ := by
  unfold pyroundQ
  rw [if_pos h]

theorem pyroundQ_eq_succ_of_gt {q : ℚ} (h : (1:ℚ)/2 < q - ⌊q⌋) :
    pyroundQ q = ⌊q⌋ + 1 := by
  unfold pyroundQ
  rw [if_neg (by linarith), if_pos h]

theorem pyroundQ_tie {q : ℚ} (h : q - ⌊q⌋ = 1/2) :
    pyroundQ q = if ⌊q⌋ % 2 = 0 then ⌊q⌋ else ⌊q⌋ + 1 := by
  unfold pyroundQ
  rw [if_neg (by rw [h]; exact lt_irrefl _), if_neg (by rw [h]; exact lt_irrefl _)]

theorem pyroundQ_mono {q1 q2 : ℚ} (h : q1 ≤ q2) : pyroundQ q1 ≤ pyroundQ q2 := by
  rcases lt_or_eq_of_le (Int.floor_le_floor h) with hf | hf
  · calc pyroundQ q1 ≤ ⌊q1⌋ + 1 := pyroundQ_le_succ q1
      _ ≤ ⌊q2⌋ := by omega
      _ ≤ pyroundQ q2 := pyroundQ_ge_floor q2
  · have hfrac : q1 - ⌊q1⌋ ≤ q2 - ⌊q2⌋ := by
      rw [← hf]
      linarith
    rcases lt_trichotomy (q1 - ⌊q1⌋) ((1:ℚ)/2) with hz1 | hz1 | hz1
    · rw [pyroundQ_eq_floor_of_lt hz1, hf]
      exact pyroundQ_ge_floor q2
    · by_cases hp : ⌊q1⌋ % 2 = 0
      · rw [pyroundQ_tie hz1, if_pos hp, hf]
        exact pyroundQ_ge_floor q2
      · rw [pyroundQ_tie hz1, if_neg hp]
        rcases lt_or_eq_of_le (hz1 ▸ hfrac) with hz2 | hz2
        · rw [pyroundQ_eq_succ_of_gt hz2, hf]
        · rw [pyroundQ_tie hz2.symm, if_neg (hf ▸ hp), hf]
    · have hz2 : (1:ℚ)/2 < q2 - ⌊q2⌋ := lt_of_lt_of_le hz1 hfrac
      rw [pyroundQ_eq_succ_of_gt hz1, pyroundQ_eq_succ_of_gt hz2, hf]

/-- On a fraction with positive denominator, `pyround` computes exactly the
round-half-to-even of the rational value. -/
theorem pyround_eq (f : Frac) (hd : 0 < f.d) : pyround f = pyroundQ f.toQ := by
  have hdQ : (0:ℚ) < (f.d : ℚ) := by exact_mod_cast hd
  have hfl : ⌊f.toQ⌋ = Int.fdiv f.n f.d := by
    rw [Int.fdiv_eq_ediv _ hd.le]
    unfold Frac.toQ
    have hdn : ((f.d.toNat : ℕ) : ℤ) = f.d := Int.toNat_of_nonneg hd.le
    calc ⌊(f.n : ℚ) / (f.d : ℚ)⌋
        = ⌊(f.n : ℚ) / ((f.d.toNat : ℤ) : ℚ)⌋ := by rw [hdn]
      _ = f.n / (f.d.toNat : ℤ) := by
          rw [show ((f.d.toNat : ℤ) : ℚ) = ((f.d.toNat : ℕ) : ℚ) by push_cast; rfl]
          exact Rat.floor_intCast_div_natCast f.n f.d.toNat
      _ = f.n / f.d := by rw [hdn]
  have hfrac : f.toQ - (⌊f.toQ⌋ : ℚ) =
      ((f.n - Int.fdiv f.n f.d * f.d : ℤ) : ℚ) / (f.d : ℚ) := by
    rw [hfl]
    unfold Frac.toQ
    push_cast
    field_simp
    ring
  have hlt : (f.toQ - (⌊f.toQ⌋ : ℚ) < 1/2) ↔
      (2 * (f.n - Int.fdiv f.n f.d * f.d) < f.d) := by
    rw [hfrac, div_lt_div_iff hdQ (by norm_num : (0:ℚ) < 2)]
    rw [show ((f.n - Int.fdiv f.n f.d * f.d : ℤ) : ℚ) * 2 =
      ((2 * (f.n - Int.fdiv f.n f.d * f.d) : ℤ) : ℚ) by push_cast; ring]
    rw [show (1 : ℚ) * (f.d : ℚ) = ((f.d : ℤ) : ℚ) by push_cast; ring]
    exact Int.cast_lt
  have hgt : ((1:ℚ)/2 < f.toQ - (⌊f.toQ⌋ : ℚ)) ↔
      (f.d < 2 * (f.n - Int.fdiv f.n f.d * f.d)) := by
    rw [hfrac, div_lt_div_iff (by norm_num : (0:ℚ) < 2) hdQ]
    rw [show ((f.n - Int.fdiv f.n f.d * f.d : ℤ) : ℚ) * 2 =
      ((2 * (f.n - Int.fdiv f.n f.d * f.d) : ℤ) : ℚ) by push_cast; ring]
    rw [show (1 : ℚ) * (f.d : ℚ) = ((f.d : ℤ) : ℚ) by push_cast; ring]
    exact Int.cast_lt
  unfold pyround pyroundQ
  by_cases c1 : 2 * (f.n - Int.fdiv f.n f.d * f.d) < f.d
  · rw [if_pos c1, if_pos (hlt.mpr c1), hfl]
  · rw [if_neg c1, if_neg (fun hx => c1 (hlt.mp hx))]
    by_cases c2 : f.d < 2 * (f.n - Int.fdiv f.n f.d * f.d)
    · rw [if_pos c2, if_pos (hgt.mpr c2), hfl]
    · rw [if_neg c2, if_neg (fun hx => c2 (hgt.mp hx)), hfl]

theorem ded_rank_range {d : Option Int} {r : Int}
    (h : get_deductible_rank d = .ok r) : r = 1 ∨ r = 2 ∨ r = 3 := by
  unfold get_deductible_rank at h
  cases d with
  | none => cases h
  | some n =>
    by_cases h1 : n = (100 : Int)
    · simp [deductables_rank, h1] at h
      omega
    · by_cases h2 : n = (200 : Int)
      · simp [deductables_rank, h1, h2] at h
        omega
      · by_cases h3 : n = (500 : Int)
        · simp [deductables_rank, h1, h2, h3] at h
          omega
        · simp [deductables_rank, h1, h2, h3] at h

theorem var_rank_range {v : Option String} {r : Int}
    (h : get_variant_rank v = .ok r) : r = 1 ∨ r = 2 ∨ r = 3 := by
  unfold get_variant_rank at h
  cases v with
  | none => cases h
  | some s =>
    by_cases h1 : s = "compact"
    · simp [variants_rank, h1] at h
      omega
    · by_cases h2 : s = "basic"
      · simp [variants_rank, h1, h2] at h
        omega
      · by_cases h3 : s = "comfort"
        · simp [variants_rank, h1, h2, h3] at h
          omega
        · by_cases h4 : s = "premium"
          · simp [variants_rank, h1, h2, h3, h4] at h
            omega
          · simp [variants_rank, h1, h2, h3, h4] at h

theorem findP_cons_pos (hd : String × Int) (tl : List (String × Int)) (k : String)
    (h : (hd.1 == k) = true) :
    List.find? (fun kv => kv.1 == k) (hd :: tl) = some hd := by
  rw [List.find?_cons]
  rw [h]

theorem findP_cons_neg (hd : String × Int) (tl : List (String × Int)) (k : String)
    (h : (hd.1 == k) = false) :
    List.find? (fun kv => kv.1 == k) (hd :: tl) =
      List.find? (fun kv => kv.1 == k) tl := by
  rw [List.find?_cons]
  rw [h]

theorem find_setP_self (p : PriceTable) (k : String) (v : Int) :
    ∀ kv0, p.find? (fun kv => kv.1 == k) = some kv0 →
      (setP p k v).find? (fun kv => kv.1 == k) = some (kv0.1, v) := by
  induction p with
  | nil => intro kv0 h; simp at h
  | cons hd tl ih =>
    intro kv0 h
    by_cases hk : (hd.1 == k) = true
    · rw [findP_cons_pos hd tl k hk] at h
      injection h with h'
      subst h'
      unfold setP
      simp only [List.map_cons, if_pos hk]
      exact findP_cons_pos (hd.1, v) _ k hk
    · have hk' : (hd.1 == k) = false := by simpa using hk
      rw [findP_cons_neg hd tl k hk'] at h
      unfold setP
      simp only [List.map_cons, if_neg hk]
      rw [findP_cons_neg hd _ k hk']
      exact ih kv0 h

theorem find_setP_other (p : PriceTable) (k : String) (v : Int) (k' : String)
    (hne : k' ≠ k) :
    (setP p k v).find? (fun kv => kv.1 == k') = p.find? (fun kv => kv.1 == k') := by
  induction p with
  | nil => rfl
  | cons hd tl ih =>
    unfold setP
    simp only [List.map_cons]
    by_cases hk : (hd.1 == k) = true
    · rw [if_pos hk]
      have h1 : hd.1 = k := by simpa using hk
      have h3 : (hd.1 == k') = false := by
        simp only [beq_eq_false_iff_ne, ne_eq, h1]
        exact fun hx => hne hx.symm
      rw [findP_cons_neg (hd.1, v) _ k' h3, findP_cons_neg hd tl k' h3]
      exact ih
    · rw [if_neg hk]
      by_cases hk' : (hd.1 == k') = true
      · rw [findP_cons_pos hd _ k' hk', findP_cons_pos hd tl k' hk']
      · have hk'' : (hd.1 == k') = false := by simpa using hk'
        rw [findP_cons_neg hd _ k' hk'', findP_cons_neg hd tl k' hk'']
        exact ih

theorem lookupP_setP_self {p : PriceTable} {k : String} {w : Int} (v : Int)
    (h : lookupP p k = .ok w) : lookupP (setP p k v) k = .ok v := by
  unfold lookupP at h ⊢
  cases hf : p.find? (fun kv => kv.1 == k) with
  | none => rw [hf] at h; cases h
  | some kv0 =>
    rw [find_setP_self p k v kv0 hf]

theorem lookupP_setP_other {p : PriceTable} {k : String} (v : Int) {k' : String}
    (hne : k' ≠ k) : lookupP (setP p k v) k' = lookupP p k' := by
  unfold lookupP
  rw [find_setP_other p k v k' hne]

/-- The common shape of both schedule loops: look up the member's rank, reset
it to `val rank`, flag `changed` on a real write. -/
def schedStep (rank : PriceElement → Except String Int) (val : Int → Int)
    (st : PriceTable × Bool) (it : PriceElement) : Except String (PriceTable × Bool) := do
  let r ← rank it
  let new_price := val r
  let p ← lookupP st.1 it.key
  if new_price ≠ p then pure (setP st.1 it.key new_price, true) else pure st

theorem apply_deductible_schedule_eq (group : List PriceElement) (prices : PriceTable)
    (base : Int) :
    apply_deductible_schedule group prices base =
      group.foldlM
        (schedStep (fun it => get_deductible_rank it.deductible)
          (fun r => pyround ((Frac.ofInt base).mul ((Frac.mk 9 10).zpow (r - 1)))))
        (prices, false) := rfl

theorem apply_variant_schedule_eq (group : List PriceElement) (prices : PriceTable)
    (base : Int) :
    apply_variant_schedule group prices base =
      group.foldlM
        (schedStep (fun it => get_variant_rank it.variant)
          (fun r => pyround ((Frac.ofInt base).mul ((Frac.mk 107 100).zpow (r - 1)))))
        (prices, false) := rfl

theorem schedStep_fold_untouched (rank : PriceElement → Except String Int)
    (val : Int → Int) :
    ∀ (group : List PriceElement) (st : PriceTable × Bool) (p' : PriceTable) (c : Bool)
      (k : String),
      (∀ m ∈ group, m.key ≠ k) →
      group.foldlM (schedStep rank val) st = .ok (p', c) →
      lookupP p' k = lookupP st.1 k := by
  intro group
  induction group with
  | nil =>
    intro st p' c k hk h
    simp only [List.foldlM_nil, exc_pure] at h
    injection h with h'
    rw [h']
  | cons m0 rest ih =>
    intro st p' c k hk h
    simp only [List.foldlM_cons] at h
    cases hstep : schedStep rank val st m0 with
    | error e => rw [hstep, exc_bind_err] at h; cases h
    | ok st1 =>
      rw [hstep, exc_bind_ok] at h
      have h1 : lookupP st1.1 k = lookupP st.1 k := by
        unfold schedStep at hstep
        cases hr : rank m0 with
        | error e => rw [hr, exc_bind_err] at hstep; cases hstep
        | ok r =>
          rw [hr, exc_bind_ok] at hstep
          dsimp only at hstep
          cases hl : lookupP st.1 m0.key with
          | error e => rw [hl, exc_bind_err] at hstep; cases hstep
          | ok pv =>
            rw [hl, exc_bind_ok] at hstep
            split at hstep <;>
              (simp only [exc_pure] at hstep; injection hstep with h2; subst h2)
            · exact lookupP_setP_other _ (Ne.symm (hk m0 (List.mem_cons_self m0 rest)))
            · rfl
      rw [ih st1 p' c k (fun m hm => hk m (List.mem_cons_of_mem m0 hm)) h, h1]

theorem schedStep_fold_result (rank : PriceElement → Except String Int)
    (val : Int → Int) :
    ∀ (group : List PriceElement) (st : PriceTable × Bool) (p' : PriceTable) (c : Bool),
      (group.map PriceElement.key).Nodup →
      group.foldlM (schedStep rank val) st = .ok (p', c) →
      ∀ m ∈ group, ∃ r, rank m = .ok r ∧ lookupP p' m.key = .ok (val r) := by
  intro group
  induction group with
  | nil =>
    intro st p' c hnd h m hm
    exact absurd hm (List.not_mem_nil m)
  | cons m0 rest ih =>
    intro st p' c hnd h m hm
    simp only [List.foldlM_cons] at h
    cases hstep : schedStep rank val st m0 with
    | error e => rw [hstep, exc_bind_err] at h; cases h
    | ok st1 =>
      rw [hstep, exc_bind_ok] at h
      rcases List.mem_cons.mp hm with hm0 | hmr
      · subst hm0
        unfold schedStep at hstep
        cases hr : rank m with
        | error e => rw [hr, exc_bind_err] at hstep; cases hstep
        | ok r =>
          rw [hr, exc_bind_ok] at hstep
          dsimp only at hstep
          cases hl : lookupP st.1 m.key with
          | error e => rw [hl, exc_bind_err] at hstep; cases hstep
          | ok pv =>
            rw [hl, exc_bind_ok] at hstep
            refine ⟨r, rfl, ?_⟩
            have hout : lookupP p' m.key = lookupP st1.1 m.key := by
              refine schedStep_fold_untouched rank val rest st1 p' c m.key ?_ h
              intro x hx hxk
              have hkeys := (List.nodup_cons.mp
                (by simpa using hnd : (m.key :: rest.map PriceElement.key).Nodup)).1
              exact hkeys (hxk ▸ List.mem_map_of_mem PriceElement.key hx)
            rw [hout]
            split at hstep <;>
              (simp only [exc_pure] at hstep; injection hstep with h2; subst h2)
            · exact lookupP_setP_self (val r) hl
            · next hcond =>
              have : val r = pv := by
                by_contra hcon
                exact hcond hcon
              rw [hl, this]
      · exact ih st1 p' c (by simpa using (List.nodup_cons.mp (by simpa using hnd)).2) h m hmr

theorem sched_ded_le (base : Int) (hb : 0 ≤ base) {r1 r2 : Int}
    (h1 : r1 = 1 ∨ r1 = 2 ∨ r1 = 3) (h2 : r2 = 1 ∨ r2 = 2 ∨ r2 = 3) (hle : r1 ≤ r2) :
    pyround ((Frac.ofInt base).mul ((Frac.mk 9 10).zpow (r2 - 1))) ≤
      pyround ((Frac.ofInt base).mul ((Frac.mk 9 10).zpow (r1 - 1))) := by
  have hbQ : (0:ℚ) ≤ (base : ℚ) := by exact_mod_cast hb
  have q1 : pyround ((Frac.ofInt base).mul ((Frac.mk 9 10).zpow ((1:Int) - 1))) =
      pyroundQ ((base : ℚ)) := by
    rw [show (Frac.ofInt base).mul ((Frac.mk 9 10).zpow ((1:Int) - 1)) =
      ⟨base * 1, 1 * 1⟩ from rfl]
    rw [pyround_eq ⟨base * 1, 1 * 1⟩ (by norm_num)]
    congr 1
    unfold Frac.toQ
    push_cast
    ring
  have q2 : pyround ((Frac.ofInt base).mul ((Frac.mk 9 10).zpow ((2:Int) - 1))) =
      pyroundQ ((base : ℚ) * 9 / 10) := by
    rw [show (Frac.ofInt base).mul ((Frac.mk 9 10).zpow ((2:Int) - 1)) =
      ⟨base * 9, 1 * 10⟩ from rfl]
    rw [pyround_eq ⟨base * 9, 1 * 10⟩ (by norm_num)]
    congr 1
    unfold Frac.toQ
    push_cast
    ring
  have q3 : pyround ((Frac.ofInt base).mul ((Frac.mk 9 10).zpow ((3:Int) - 1))) =
      pyroundQ ((base : ℚ) * 81 / 100) := by
    rw [show (Frac.ofInt base).mul ((Frac.mk 9 10).zpow ((3:Int) - 1)) =
      ⟨base * 81, 1 * 100⟩ from rfl]
    rw [pyround_eq ⟨base * 81, 1 * 100⟩ (by norm_num)]
    congr 1
    unfold Frac.toQ
    push_cast
    ring
  have i21 : (base : ℚ) * 9 / 10 ≤ (base : ℚ) := by
    rw [div_le_iff (by norm_num : (0:ℚ) < 10)]
    nlinarith [hbQ]
  have i32 : (base : ℚ) * 81 / 100 ≤ (base : ℚ) * 9 / 10 := by
    rw [div_le_div_iff (by norm_num : (0:ℚ) < 100) (by norm_num : (0:ℚ) < 10)]
    nlinarith [hbQ]
  rcases h1 with rfl | rfl | rfl <;> rcases h2 with rfl | rfl | rfl
  · exact le_refl _
  · rw [q1, q2]; exact pyroundQ_mono i21
  · rw [q1, q3]; exact pyroundQ_mono (le_trans i32 i21)
  · exact absurd hle (by omega)
  · exact le_refl _
  · rw [q2, q3]; exact pyroundQ_mono i32
  · exact absurd hle (by omega)
  · exact absurd hle (by omega)
  · exact le_refl _

theorem sched_var_le (base : Int) (hb : 0 ≤ base) {r1 r2 : Int}
    (h1 : r1 = 1 ∨ r1 = 2 ∨ r1 = 3) (h2 : r2 = 1 ∨ r2 = 2 ∨ r2 = 3) (hle : r1 ≤ r2) :
    pyround ((Frac.ofInt base).mul ((Frac.mk 107 100).zpow (r1 - 1))) ≤
      pyround ((Frac.ofInt base).mul ((Frac.mk 107 100).zpow (r2 - 1))) := by
  have hbQ : (0:ℚ) ≤ (base : ℚ) := by exact_mod_cast hb
  have q1 : pyround ((Frac.ofInt base).mul ((Frac.mk 107 100).zpow ((1:Int) - 1))) =
      pyroundQ ((base : ℚ)) := by
    rw [show (Frac.ofInt base).mul ((Frac.mk 107 100).zpow ((1:Int) - 1)) =
      ⟨base * 1, 1 * 1⟩ from rfl]
    rw [pyround_eq ⟨base * 1, 1 * 1⟩ (by norm_num)]
    congr 1
    unfold Frac.toQ
    push_cast
    ring
  have q2 : pyround ((Frac.ofInt base).mul ((Frac.mk 107 100).zpow ((2:Int) - 1))) =
      pyroundQ ((base : ℚ) * 107 / 100) := by
    rw [show (Frac.ofInt base).mul ((Frac.mk 107 100).zpow ((2:Int) - 1)) =
      ⟨base * 107, 1 * 100⟩ from rfl]
    rw [pyround_eq ⟨base * 107, 1 * 100⟩ (by norm_num)]
    congr 1
    unfold Frac.toQ
    push_cast
    ring
  have q3 : pyround ((Frac.ofInt base).mul ((Frac.mk 107 100).zpow ((3:Int) - 1))) =
      pyroundQ ((base : ℚ) * 11449 / 10000) := by
    rw [show (Frac.ofInt base).mul ((Frac.mk 107 100).zpow ((3:Int) - 1)) =
      ⟨base * 11449, 1 * 10000⟩ from rfl]
    rw [pyround_eq ⟨base * 11449, 1 * 10000⟩ (by norm_num)]
    congr 1
    unfold Frac.toQ
    push_cast
    ring
  have i12 : (base : ℚ) ≤ (base : ℚ) * 107 / 100 := by
    rw [le_div_iff (by norm_num : (0:ℚ) < 100)]
    nlinarith [hbQ]
  have i23 : (base : ℚ) * 107 / 100 ≤ (base : ℚ) * 11449 / 10000 := by
    rw [div_le_div_iff (by norm_num : (0:ℚ) < 100) (by norm_num : (0:ℚ) < 10000)]
    nlinarith [hbQ]
  rcases h1 with rfl | rfl | rfl <;> rcases h2 with rfl | rfl | rfl
  · exact le_refl _
  · rw [q1, q2]; exact pyroundQ_mono i12
  · rw [q1, q3]; exact pyroundQ_mono (le_trans i12 i23)
  · exact absurd hle (by omega)
  · exact le_refl _
  · rw [q2, q3]; exact pyroundQ_mono i23
  · exact absurd hle (by omega)
  · exact absurd hle (by omega)
  · exact le_refl _

/-- Claim C4 (amended): each corrective schedule is monotone along its own
axis — after `apply_deductible_schedule` with a nonnegative base, a group
member's price is a non-increasing function of its deductible rank, and after
`apply_variant_schedule` a member's price is a non-decreasing function of its
variant rank. Monotonicity of the whole table after `fix_products_inplace`
returns does not hold in general (`claim4_cex`: the loop can exhaust its
budget mid-oscillation). -/
theorem claim4_schedule_monotone :
    (∀ (group : List PriceElement) (prices : PriceTable) (base : Int)
        (p' : PriceTable) (c : Bool) (x y : PriceElement) (rx ry px py : Int),
      (group.map PriceElement.key).Nodup →
      apply_deductible_schedule group prices base = .ok (p', c) →
      x ∈ group → y ∈ group →
      get_deductible_rank x.deductible = .ok rx →
      get_deductible_rank y.deductible = .ok ry →
      rx ≤ ry → 0 ≤ base →
      lookupP p' x.key = .ok px → lookupP p' y.key = .ok py →
      py ≤ px) ∧
    (∀ (group : List PriceElement) (prices : PriceTable) (base : Int)
        (p' : PriceTable) (c : Bool) (x y : PriceElement) (rx ry px py : Int),
      (group.map PriceElement.key).Nodup →
      apply_variant_schedule group prices base = .ok (p', c) →
      x ∈ group → y ∈ group →
      get_variant_rank x.variant = .ok rx →
      get_variant_rank y.variant = .ok ry →
      rx ≤ ry → 0 ≤ base →
      lookupP p' x.key = .ok px → lookupP p' y.key = .ok py →
      px ≤ py) := by
  constructor
  · intro group prices base p' c x y rx ry px py hnd hs hx hy hrx hry hle hb hpx hpy
    rw [apply_deductible_schedule_eq] at hs
    obtain ⟨r1, hr1, hl1⟩ := schedStep_fold_result _ _ group (prices, false) p' c hnd hs x hx
    obtain ⟨r2, hr2, hl2⟩ := schedStep_fold_result _ _ group (prices, false) p' c hnd hs y hy
    have e1 : rx = r1 := by
      rw [hrx] at hr1
      injection hr1
    have e2 : ry = r2 := by
      rw [hry] at hr2
      injection hr2
    subst e1
    subst e2
    rw [hpx] at hl1
    rw [hpy] at hl2
    injection hl1 with hv1
    injection hl2 with hv2
    rw [hv1, hv2]
    exact sched_ded_le base hb (ded_rank_range hrx) (ded_rank_range hry) hle
  · intro group prices base p' c x y rx ry px py hnd hs hx hy hrx hry hle hb hpx hpy
    rw [apply_variant_schedule_eq] at hs
    obtain ⟨r1, hr1, hl1⟩ := schedStep_fold_result _ _ group (prices, false) p' c hnd hs x hx
    obtain ⟨r2, hr2, hl2⟩ := schedStep_fold_result _ _ group (prices, false) p' c hnd hs y hy
    have e1 : rx = r1 := by
      rw [hrx] at hr1
      injection hr1
    have e2 : ry = r2 := by
      rw [hry] at hr2
      injection hr2
    subst e1
    subst e2
    rw [hpx] at hl1
    rw [hpy] at hl2
    injection hl1 with hv1
    injection hl2 with hv2
    rw [hv1, hv2]
    exact sched_var_le base hb (var_rank_range hrx) (var_rank_range hry) hle

/-- Witness for `claim4_schedule_monotone`: concrete two-member groups. -/
theorem claim4_witness : ((90 : Int) ≤ 100) ∧ ((100 : Int) ≤ 107) :=
  ⟨claim4_schedule_monotone.1
      [⟨"casco_basic_100", "casco", some "basic", some 100⟩,
        ⟨"casco_basic_200", "casco", some "basic", some 200⟩]
      [("casco_basic_100", 100), ("casco_basic_200", 95)] 100
      [("casco_basic_100", 100), ("casco_basic_200", 90)] true
      ⟨"casco_basic_100", "casco", some "basic", some 100⟩
      ⟨"casco_basic_200", "casco", some "basic", some 200⟩
      1 2 100 90 (by decide) (by rfl) (by decide) (by decide) (by rfl) (by rfl)
      (by decide) (by decide) (by rfl) (by rfl),
    claim4_schedule_monotone.2
      [⟨"casco_basic_100", "casco", some "basic", some 100⟩,
        ⟨"casco_comfort_100", "casco", some "comfort", some 100⟩]
      [("casco_basic_100", 100), ("casco_comfort_100", 95)] 100
      [("casco_basic_100", 100), ("casco_comfort_100", 107)] true
      ⟨"casco_basic_100", "casco", some "basic", some 100⟩
      ⟨"casco_comfort_100", "casco", some "comfort", some 100⟩
      1 2 100 107 (by decide) (by rfl) (by decide) (by decide) (by rfl) (by rfl)
      (by decide) (by decide) (by rfl) (by rfl)⟩

/-! ### Claim C3: counterexample and amended theorem -/

/-- Counterexample to claim C3 as stated: this table is well formed and
`detect_inconsistencies` returns the empty report, yet `fix_products_inplace`
mutates it — the repair's deductible branch fires on tied variant ranks
(`compact` and `basic` both have rank 1), a configuration no detector rule
covers. -/
theorem claim3_cex :
    build_price_items
        [("casco_compact_100", 100), ("casco_compact_200", 50), ("casco_basic_500", 150)] =
      .ok [⟨"casco_compact_100", "casco", some "compact", some 100⟩,
        ⟨"casco_compact_200", "casco", some "compact", some 200⟩,
        ⟨"casco_basic_500", "casco", some "basic", some 500⟩] ∧
    detect_inconsistencies
        [⟨"casco_compact_100", "casco", some "compact", some 100⟩,
          ⟨"casco_compact_200", "casco", some "compact", some 200⟩,
          ⟨"casco_basic_500", "casco", some "basic", some 500⟩]
        [("casco_compact_100", 100), ("casco_compact_200", 50), ("casco_basic_500", 150)] =
      .ok ("", [("casco_compact_100", 100), ("casco_compact_200", 50), ("casco_basic_500", 150)]) ∧
    fix_products_inplace
        [⟨"casco_compact_100", "casco", some "compact", some 100⟩,
          ⟨"casco_compact_200", "casco", some "compact", some 200⟩,
          ⟨"casco_basic_500", "casco", some "basic", some 500⟩]
        [("casco_compact_100", 100), ("casco_compact_200", 50), ("casco_basic_500", 150)]
        [] 10 =
      .ok [("casco_compact_100", 100), ("casco_compact_200", 90), ("casco_basic_500", 150)] ∧
    [("casco_compact_100", 100), ("casco_compact_200", 90), ("casco_basic_500", 150)] ≠
      [("casco_compact_100", 100), ("casco_compact_200", 50), ("casco_basic_500", 150)] := by
  exact ⟨rfl, rfl, rfl, by decide⟩

theorem violationLine_ne (tag lk : String) (lp : Int) (hk2 : String) (hp2 : Int) :
    violationLine tag lk lp hk2 hp2 ≠ "" := by
  unfold violationLine
  intro hx
  have hlen := congrArg String.length hx
  simp only [String.length_append] at hlen
  rw [show (": '" : String).length = 3 from rfl] at hlen
  rw [show ("" : String).length = 0 from rfl] at hlen
  omega

theorem pyJoin_eq_empty {ls : List String} (hne : ∀ l ∈ ls, l ≠ "")
    (h : pyJoin "\n" ls = "") : ls = [] := by
  match ls with
  | [] => rfl
  | [a] => exact absurd h (hne a (List.mem_singleton.mpr rfl))
  | a :: b :: t =>
    exfalso
    have hlen := congrArg String.length h
    rw [show pyJoin "\n" (a :: b :: t) = a ++ "\n" ++ pyJoin "\n" (b :: t) from rfl] at hlen
    simp only [String.length_append] at hlen
    rw [show ("\n" : String).length = 1 from rfl] at hlen
    rw [show ("" : String).length = 0 from rfl] at hlen
    omega

theorem get_product_rank_inv {p : String} {r : Int} (h : get_product_rank p = .ok r) :
    (p = "mtpl" ∧ r = 1) ∨ (p = "limited_casco" ∧ r = 2) ∨ (p = "casco" ∧ r = 3) := by
  unfold get_product_rank at h
  by_cases h1 : p = "mtpl"
  · simp [product_rank, h1] at h
    exact Or.inl ⟨h1, h.symm⟩
  · by_cases h2 : p = "limited_casco"
    · simp [product_rank, h1, h2] at h
      exact Or.inr (Or.inl ⟨h2, h.symm⟩)
    · by_cases h3 : p = "casco"
      · simp [product_rank, h1, h2, h3] at h
        exact Or.inr (Or.inr ⟨h3, h.symm⟩)
      · simp [product_rank, h1, h2, h3] at h

theorem prod_rank_inj {p q : String} {r : Int}
    (hp : get_product_rank p = .ok r) (hq : get_product_rank q = .ok r) : p = q := by
  rcases get_product_rank_inv hp with ⟨hp1, hr1⟩ | ⟨hp1, hr1⟩ | ⟨hp1, hr1⟩ <;>
    rcases get_product_rank_inv hq with ⟨hq1, hr2⟩ | ⟨hq1, hr2⟩ | ⟨hq1, hr2⟩ <;>
    first
      | (exfalso; omega)
      | (rw [hp1, hq1])

theorem get_deductible_rank_inv {d : Option Int} {r : Int}
    (h : get_deductible_rank d = .ok r) :
    ∃ n, d = some n ∧
      ((n = 100 ∧ r = 1) ∨ (n = 200 ∧ r = 2) ∨ (n = 500 ∧ r = 3)) := by
  unfold get_deductible_rank at h
  cases d with
  | none => cases h
  | some n =>
    refine ⟨n, rfl, ?_⟩
    by_cases h1 : n = (100 : Int)
    · simp [deductables_rank, h1] at h
      exact Or.inl ⟨h1, h.symm⟩
    · by_cases h2 : n = (200 : Int)
      · simp [deductables_rank, h1, h2] at h
        exact Or.inr (Or.inl ⟨h2, h.symm⟩)
      · by_cases h3 : n = (500 : Int)
        · simp [deductables_rank, h1, h2, h3] at h
          exact Or.inr (Or.inr ⟨h3, h.symm⟩)
        · simp [deductables_rank, h1, h2, h3] at h

theorem ded_rank_inj {d e : Option Int} {r : Int}
    (hd : get_deductible_rank d = .ok r) (he : get_deductible_rank e = .ok r) :
    d = e := by
  obtain ⟨n, hn, hcn⟩ := get_deductible_rank_inv hd
  obtain ⟨m, hm, hcm⟩ := get_deductible_rank_inv he
  subst hn
  subst hm
  rcases hcn with ⟨h1, h2⟩ | ⟨h1, h2⟩ | ⟨h1, h2⟩ <;>
    rcases hcm with ⟨h3, h4⟩ | ⟨h3, h4⟩ | ⟨h3, h4⟩ <;>
    first
      | (exfalso; omega)
      | (rw [h1, h3])

theorem allPairs_mem : ∀ (l : List α) (ab : α × α), ab ∈ allPairs l →
    ab.1 ∈ l ∧ ab.2 ∈ l := by
  intro l
  induction l with
  | nil => intro ab h; simp [allPairs] at h
  | cons x xs ih =>
    intro ab h
    unfold allPairs at h
    rcases List.mem_append.mp h with hm | hm
    · obtain ⟨y, hy, hxy⟩ := List.mem_map.mp hm
      rw [← hxy]
      exact ⟨List.mem_cons_self x xs, List.mem_cons_of_mem x hy⟩
    · obtain ⟨h1, h2⟩ := ih ab hm
      exact ⟨List.mem_cons_of_mem x h1, List.mem_cons_of_mem x h2⟩

theorem foldlM_id {α σ : Type} (f : σ → α → Except String σ) :
    ∀ (l : List α) (s : σ), (∀ x ∈ l, f s x = .ok s) → l.foldlM f s = .ok s := by
  intro l
  induction l with
  | nil => intro s _; rfl
  | cons hd tl ih =>
    intro s h
    simp only [List.foldlM_cons]
    rw [h hd (List.mem_cons_self hd tl), exc_bind_ok]
    exact ih s (fun x hx => h x (List.mem_cons_of_mem hd hx))

theorem vri_spec {items : List PriceElement} (h : variant_ranks_injective items = true) :
    ∀ x ∈ items, ∀ y ∈ items, ∀ rx ry : Int,
      get_variant_rank x.variant = .ok rx → get_variant_rank y.variant = .ok ry →
      rx = ry → x.variant = y.variant := by
  intro x hx y hy rx ry hrx hry hxy
  unfold variant_ranks_injective at h
  have h1 := List.all_eq_true.mp h x hx
  have h2 := List.all_eq_true.mp h1 y hy
  rw [hrx, hry] at h2
  dsimp only at h2
  rcases Bool.or_eq_true_iff.mp h2 with hc | hc
  · exfalso
    rw [hxy] at hc
    simp at hc
  · simpa using hc

theorem cross_same_tier_action_noop {items : List PriceElement} {prices : PriceTable}
    {changed : Bool} {lower higher : PriceElement} {lp : Int} {ratio : Frac}
    (hguard : ¬(¬is_core_product lower.product = true ∧
      ¬is_core_product higher.product = true ∧ lower.variant = higher.variant ∧
      lower.deductible = higher.deductible)) :
    cross_same_tier_action items prices changed lower higher lp ratio =
      .ok (prices, changed) := by
  unfold cross_same_tier_action
  rw [if_neg hguard]
  rfl

theorem core_anchor_action_noop {items : List PriceElement} {st1 : PriceTable × Bool}
    {lower higher : PriceElement} {lp : Int} {ratio : Frac}
    (hguard : ¬(is_core_product lower.product = true ∧
      ¬is_core_product higher.product = true)) :
    core_anchor_action items st1 lower higher lp ratio = .ok st1 := by
  unfold core_anchor_action
  rw [if_neg hguard]
  rfl

theorem deductible_action_nofire {items : List PriceElement} {prices : PriceTable}
    {changed : Bool} {a b : PriceElement} {dav dbv : Int} {qL qH : Int}
    (hL : lookupP prices (if dav < dbv then a else b).key = .ok qL)
    (hH : lookupP prices (if dav < dbv then b else a).key = .ok qH)
    (hnf : ¬(qL ≤ qH)) :
    deductible_action items prices changed a b dav dbv = .ok (prices, changed) := by
  unfold deductible_action deductible_fire
  by_cases hd : dav < dbv
  · rw [if_pos hd] at hL hH
    rw [if_pos hd, hL, hH]
    dsimp only
    rw [if_neg hnf]
    rfl
  · rw [if_neg hd] at hL hH
    rw [if_neg hd, hL, hH]
    dsimp only
    rw [if_neg hnf]
    rfl

theorem variant_action_nofire {items : List PriceElement} {prices : PriceTable}
    {changed : Bool} {a b : PriceElement} {vav vbv : Int} {qL qH : Int}
    (hL : lookupP prices (if vav < vbv then a else b).key = .ok qL)
    (hH : lookupP prices (if vav < vbv then b else a).key = .ok qH)
    (hnf : ¬(qL ≥ qH)) :
    variant_action items prices changed a b vav vbv = .ok (prices, changed) := by
  unfold variant_action variant_fire
  by_cases hv : vav < vbv
  · rw [if_pos hv] at hL hH
    rw [if_pos hv, hL, hH]
    dsimp only
    rw [if_neg hnf]
    rfl
  · rw [if_neg hv] at hL hH
    rw [if_neg hv, hL, hH]
    dsimp only
    rw [if_neg hnf]
    rfl


theorem exc_bind_ok_inv {α β : Type} {e : Except String α} {f : α → Except String β}
    {b : β} (h : (e >>= f) = .ok b) : ∃ a, e = .ok a ∧ f a = .ok b := by
  cases e with
  | ok a => exact ⟨a, rfl, h⟩
  | error s =>
    rw [exc_bind_err] at h
    cases h

/-- Inversion of a pair that appended no report line: every top-level read
succeeds and none of the four rules' emission conditions holds, stated with
the rank comparisons resolved. -/
theorem detect_pair_lines_nil_inv {prices : PriceTable} {a b : PriceElement}
    (h : detect_pair_lines prices a b = .ok []) :
    ∃ qa qb pa pb,
      lookupP prices a.key = .ok qa ∧ lookupP prices b.key = .ok qb ∧
      get_product_rank a.product = .ok pa ∧ get_product_rank b.product = .ok pb ∧
      (pa < pb → ¬(is_core_product a.product = true ∧ qa ≥ qb)) ∧
      (pb < pa → ¬(is_core_product b.product = true ∧ qb ≥ qa)) ∧
      (a.product ≠ b.product → ¬is_core_product a.product = true →
        ¬is_core_product b.product = true → a.variant = b.variant →
        a.deductible = b.deductible →
        (pa < pb → ¬(qa ≥ qb)) ∧ (¬pa < pb → ¬(qb ≥ qa))) ∧
      (a.product = b.product → ¬is_core_product a.product = true →
        ¬is_core_product b.product = true → a.deductible = b.deductible →
        ∃ va vb : Int, get_variant_rank a.variant = .ok va ∧
          get_variant_rank b.variant = .ok vb ∧
          (va < vb → ¬(qa ≥ qb)) ∧ (vb < va → ¬(qb ≥ qa))) ∧
      (a.product = b.product → ¬is_core_product a.product = true →
        ¬is_core_product b.product = true → a.variant = b.variant →
        ∃ da db : Int, get_deductible_rank a.deductible = .ok da ∧
          get_deductible_rank b.deductible = .ok db ∧
          (da < db → ¬(qb ≥ qa)) ∧ (db < da → ¬(qa ≥ qb))) := by
  unfold detect_pair_lines at h
  obtain ⟨qa, hqa, h⟩ := exc_bind_ok_inv h
  try dsimp only at h
  obtain ⟨qb, hqb, h⟩ := exc_bind_ok_inv h
  try dsimp only at h
  obtain ⟨pa, hpa, h⟩ := exc_bind_ok_inv h
  try dsimp only at h
  obtain ⟨pb, hpb, h⟩ := exc_bind_ok_inv h
  try dsimp only at h
  obtain ⟨l3, h3, h⟩ := exc_bind_ok_inv h
  try dsimp only at h
  obtain ⟨l4, h4, h⟩ := exc_bind_ok_inv h
  try dsimp only at h
  rw [exc_pure] at h
  injection h with h'
  rcases List.append_eq_nil.mp h' with ⟨h123, hl4⟩
  rcases List.append_eq_nil.mp h123 with ⟨h12, hl3⟩
  rcases List.append_eq_nil.mp h12 with ⟨h1, h2⟩
  subst hl3
  subst hl4
  refine ⟨qa, qb, pa, pb, hqa, hqb, hpa, hpb, ?_, ?_, ?_, ?_, ?_⟩
  · intro hlt hc
    obtain ⟨hcore, hge⟩ := hc
    have hne : pa ≠ pb := ne_of_lt hlt
    rw [if_pos hne] at h1
    simp only [order_by_rank, if_pos hlt] at h1
    try dsimp only at h1
    rw [if_pos (show is_core_product a.product = true ∧ qa ≥ qb from ⟨hcore, hge⟩)] at h1
    exact List.cons_ne_nil _ _ h1
  · intro hlt hc
    obtain ⟨hcore, hge⟩ := hc
    have hne : pa ≠ pb := (ne_of_lt hlt).symm
    have hnlt : ¬pa < pb := lt_asymm hlt
    rw [if_pos hne] at h1
    simp only [order_by_rank, if_neg hnlt] at h1
    try dsimp only at h1
    rw [if_pos (show is_core_product b.product = true ∧ qb ≥ qa from ⟨hcore, hge⟩)] at h1
    exact List.cons_ne_nil _ _ h1
  · intro hab hca hcb hvv hdd
    have hg : a.product ≠ b.product ∧ ¬is_core_product a.product = true ∧
        ¬is_core_product b.product = true ∧ a.variant = b.variant ∧
        a.deductible = b.deductible := ⟨hab, hca, hcb, hvv, hdd⟩
    rw [if_pos hg] at h2
    constructor
    · intro hlt hge
      simp only [order_by_rank, if_pos hlt] at h2
      try dsimp only at h2
      rw [if_pos hge] at h2
      exact List.cons_ne_nil _ _ h2
    · intro hnlt hge
      simp only [order_by_rank, if_neg hnlt] at h2
      try dsimp only at h2
      rw [if_pos hge] at h2
      exact List.cons_ne_nil _ _ h2
  · intro hab hca hcb hdd
    have hg : a.product = b.product ∧ ¬is_core_product a.product = true ∧
        ¬is_core_product b.product = true ∧ a.deductible = b.deductible :=
      ⟨hab, hca, hcb, hdd⟩
    unfold rule3_lines at h3
    rw [if_pos hg] at h3
    obtain ⟨va, hva, h3⟩ := exc_bind_ok_inv h3
    try dsimp only at h3
    obtain ⟨vb, hvb, h3⟩ := exc_bind_ok_inv h3
    try dsimp only at h3
    refine ⟨va, vb, hva, hvb, ?_, ?_⟩
    · intro hlt hge
      have hne : va ≠ vb := ne_of_lt hlt
      rw [if_pos hne] at h3
      simp only [order_by_rank, if_pos hlt] at h3
      try dsimp only at h3
      rw [if_pos hge, exc_pure] at h3
      injection h3 with h3'
      exact List.cons_ne_nil _ _ h3'
    · intro hlt hge
      have hne : va ≠ vb := (ne_of_lt hlt).symm
      have hnlt : ¬va < vb := lt_asymm hlt
      rw [if_pos hne] at h3
      simp only [order_by_rank, if_neg hnlt] at h3
      try dsimp only at h3
      rw [if_pos hge, exc_pure] at h3
      injection h3 with h3'
      exact List.cons_ne_nil _ _ h3'
  · intro hab hca hcb hvv
    have hg : a.product = b.product ∧ ¬is_core_product a.product = true ∧
        ¬is_core_product b.product = true ∧ a.variant = b.variant :=
      ⟨hab, hca, hcb, hvv⟩
    unfold rule4_lines at h4
    rw [if_pos hg] at h4
    obtain ⟨da, hda, h4⟩ := exc_bind_ok_inv h4
    try dsimp only at h4
    obtain ⟨db, hdb, h4⟩ := exc_bind_ok_inv h4
    try dsimp only at h4
    refine ⟨da, db, hda, hdb, ?_, ?_⟩
    · intro hlt hge
      have hne : da ≠ db := ne_of_lt hlt
      rw [if_pos hne] at h4
      simp only [order_by_rank, if_pos hlt] at h4
      try dsimp only at h4
      rw [if_pos hge, exc_pure] at h4
      injection h4 with h4'
      exact List.cons_ne_nil _ _ h4'
    · intro hlt hge
      have hne : da ≠ db := (ne_of_lt hlt).symm
      have hnlt : ¬da < db := lt_asymm hlt
      rw [if_pos hne] at h4
      simp only [order_by_rank, if_neg hnlt] at h4
      try dsimp only at h4
      rw [if_pos hge, exc_pure] at h4
      injection h4 with h4'
      exact List.cons_ne_nil _ _ h4'

/-- Both-core pair at equal product rank: neither schedule branch can fire,
so the pair body returns the running state unchanged. -/
theorem processPairCore_noop_eq_core (avg : List (String × Frac))
    (items : List PriceElement) (prices : PriceTable) (changed : Bool)
    (a b : PriceElement) (pa : Int) (va vb da db : Option Int) (qa qb : Int)
    (hqa : lookupP prices a.key = .ok qa) (hqb : lookupP prices b.key = .ok qb)
    (hcore : is_core_product a.product = true) :
    processPairCore avg items (prices, changed) a b pa pa va vb da db =
      .ok (prices, changed) := by
  unfold processPairCore
  dsimp only
  rw [hqa, exc_bind_ok, hqb, exc_bind_ok]
  rw [if_neg (show ¬pa ≠ pa from fun hc => hc rfl)]
  rw [if_neg (show ¬(¬is_core_product a.product = true ∧ ¬is_core_product b.product = true ∧
    va = vb ∧ da ≠ db) from fun hcg => hcg.1 hcore)]
  simp only [exc_pure, exc_bind_ok]
  rw [if_neg (show ¬(¬is_core_product a.product = true ∧ ¬is_core_product b.product = true ∧
    da = db ∧ va ≠ vb) from fun hcg => hcg.1 hcore)]

/-- Differing product ranks with no detected product-order violation: the
`pa != pb` arm of the pair body acts as the identity on the running state. -/
theorem processPairCore_noop_ne (avg : List (String × Frac))
    (items : List PriceElement) (prices : PriceTable) (changed : Bool)
    (a b : PriceElement) (pa pb : Int) (va vb da db : Option Int) (qa qb : Int)
    (hqa : lookupP prices a.key = .ok qa) (hqb : lookupP prices b.key = .ok qb)
    (hpa : get_product_rank a.product = .ok pa)
    (hpb : get_product_rank b.product = .ok pb)
    (hne : pa ≠ pb)
    (c1a : pa < pb → ¬(is_core_product a.product = true ∧ qa ≥ qb))
    (c1b : pb < pa → ¬(is_core_product b.product = true ∧ qb ≥ qa))
    (c2 : a.product ≠ b.product → ¬is_core_product a.product = true →
      ¬is_core_product b.product = true → a.variant = b.variant →
      a.deductible = b.deductible →
      (pa < pb → ¬(qa ≥ qb)) ∧ (¬pa < pb → ¬(qb ≥ qa))) :
    processPairCore avg items (prices, changed) a b pa pb va vb da db =
      .ok (prices, changed) := by
  have hprodne : a.product ≠ b.product := by
    intro hq
    rw [hq, hpb] at hpa
    injection hpa with hpa
    exact hne hpa.symm
  unfold processPairCore
  dsimp only
  rw [hqa, exc_bind_ok, hqb, exc_bind_ok]
  rw [if_pos hne]
  unfold order_by_rank
  by_cases hlt : pa < pb
  · rw [if_pos hlt]
    dsimp only
    rw [hqa, hqb]
    dsimp only
    cases hal : avgGet avg a.product with
    | none => cases hah : avgGet avg b.product <;> rfl
    | some favg =>
      cases hah : avgGet avg b.product with
      | none => rfl
      | some gavg =>
        dsimp only
        by_cases hz : favg.isZero = true
        · rw [if_pos hz]
          rfl
        · rw [if_neg hz]
          try dsimp only
          by_cases hge : qa ≥ qb
          · rw [if_pos hge]
            have hcross : ¬(¬is_core_product a.product = true ∧
                ¬is_core_product b.product = true ∧ a.variant = b.variant ∧
                a.deductible = b.deductible) := by
              intro hcg
              exact (c2 hprodne hcg.1 hcg.2.1 hcg.2.2.1 hcg.2.2.2).1 hlt hge
            rw [cross_same_tier_action_noop hcross, exc_bind_ok]
            exact core_anchor_action_noop (fun hcg => absurd ⟨hcg.1, hge⟩ (c1a hlt))
          · rw [if_neg hge]
            rfl
  · rw [if_neg hlt]
    dsimp only
    rw [hqb, hqa]
    dsimp only
    have hlt' : pb < pa := lt_of_le_of_ne (not_lt.mp hlt) (Ne.symm hne)
    cases hal : avgGet avg b.product with
    | none => cases hah : avgGet avg a.product <;> rfl
    | some favg =>
      cases hah : avgGet avg a.product with
      | none => rfl
      | some gavg =>
        dsimp only
        by_cases hz : favg.isZero = true
        · rw [if_pos hz]
          rfl
        · rw [if_neg hz]
          try dsimp only
          by_cases hge : qb ≥ qa
          · rw [if_pos hge]
            have hcross : ¬(¬is_core_product b.product = true ∧
                ¬is_core_product a.product = true ∧ b.variant = a.variant ∧
                b.deductible = a.deductible) := by
              intro hcg
              exact (c2 hprodne hcg.2.1 hcg.1 hcg.2.2.1.symm hcg.2.2.2.symm).2 hlt hge
            rw [cross_same_tier_action_noop hcross, exc_bind_ok]
            exact core_anchor_action_noop (fun hcg => absurd ⟨hcg.1, hge⟩ (c1b hlt'))
          · rw [if_neg hge]
            rfl

/-- Equal product ranks on two non-core items whose detected variant and
deductible orders are clean: neither schedule branch performs a write, so the
pair body returns the running state unchanged.  The `hvar_of` hypothesis is
the variant-rank injectivity fact specialised to this pair. -/
theorem processPairCore_noop_eq (avg : List (String × Frac))
    (items : List PriceElement) (prices : PriceTable) (changed : Bool)
    (a b : PriceElement) (pa : Int) (rva rvb rda rdb : Int) (qa qb : Int)
    (hqa : lookupP prices a.key = .ok qa) (hqb : lookupP prices b.key = .ok qb)
    (hacn : ¬is_core_product a.product = true)
    (hbcn : ¬is_core_product b.product = true)
    (hva : get_variant_rank a.variant = .ok rva)
    (hvb : get_variant_rank b.variant = .ok rvb)
    (hda : get_deductible_rank a.deductible = .ok rda)
    (hdb : get_deductible_rank b.deductible = .ok rdb)
    (hvar_of : rva = rvb → a.variant = b.variant)
    (c3 : a.deductible = b.deductible → ∃ v1 v2 : Int,
      get_variant_rank a.variant = .ok v1 ∧ get_variant_rank b.variant = .ok v2 ∧
      (v1 < v2 → ¬(qa ≥ qb)) ∧ (v2 < v1 → ¬(qb ≥ qa)))
    (c4 : a.variant = b.variant → ∃ d1 d2 : Int,
      get_deductible_rank a.deductible = .ok d1 ∧
      get_deductible_rank b.deductible = .ok d2 ∧
      (d1 < d2 → ¬(qb ≥ qa)) ∧ (d2 < d1 → ¬(qa ≥ qb))) :
    processPairCore avg items (prices, changed) a b pa pa
      (some rva) (some rvb) (some rda) (some rdb) = .ok (prices, changed) := by
  unfold processPairCore
  dsimp only
  rw [hqa, exc_bind_ok, hqb, exc_bind_ok]
  rw [if_neg (show ¬pa ≠ pa from fun hc => hc rfl)]
  by_cases hvv : rva = rvb
  all_goals by_cases hdd : rda = rdb
  · -- same variant rank, same deductible rank: neither guard fires
    rw [if_neg (show ¬(¬is_core_product a.product = true ∧
      ¬is_core_product b.product = true ∧ (some rva) = (some rvb) ∧
      (some rda) ≠ (some rdb)) from fun hcg => hcg.2.2.2 (congrArg some hdd))]
    simp only [exc_pure, exc_bind_ok]
    rw [if_neg (show ¬(¬is_core_product a.product = true ∧
      ¬is_core_product b.product = true ∧ (some rda) = (some rdb) ∧
      (some rva) ≠ (some rvb)) from fun hcg => hcg.2.2.2 (congrArg some hvv))]
  · -- same variant rank, differing deductible ranks: the deductible branch
    -- is guarded off by the clean detected deductible order
    rw [if_pos (show (¬is_core_product a.product = true ∧
      ¬is_core_product b.product = true ∧ (some rva) = (some rvb) ∧
      (some rda) ≠ (some rdb)) from
      ⟨hacn, hbcn, congrArg some hvv, fun hc => hdd (Option.some.inj hc)⟩)]
    simp only [Option.getD_some]
    obtain ⟨d1, d2, hd1, hd2, i1, i2⟩ := c4 (hvar_of hvv)
    rw [hda] at hd1
    injection hd1 with hd1
    subst hd1
    rw [hdb] at hd2
    injection hd2 with hd2
    subst hd2
    by_cases hdlt : rda < rdb
    · have hL : lookupP prices (if rda < rdb then a else b).key = .ok qa := by
        rw [if_pos hdlt]
        exact hqa
      have hH : lookupP prices (if rda < rdb then b else a).key = .ok qb := by
        rw [if_pos hdlt]
        exact hqb
      rw [deductible_action_nofire hL hH (i1 hdlt), exc_bind_ok]
      dsimp only
      rw [if_neg (show ¬(¬is_core_product a.product = true ∧
        ¬is_core_product b.product = true ∧ (some rda) = (some rdb) ∧
        (some rva) ≠ (some rvb)) from fun hcg => hcg.2.2.2 (congrArg some hvv))]
      rfl
    · have hdgt : rdb < rda := lt_of_le_of_ne (not_lt.mp hdlt) (fun hc => hdd hc.symm)
      have hL : lookupP prices (if rda < rdb then a else b).key = .ok qb := by
        rw [if_neg hdlt]
        exact hqb
      have hH : lookupP prices (if rda < rdb then b else a).key = .ok qa := by
        rw [if_neg hdlt]
        exact hqa
      rw [deductible_action_nofire hL hH (i2 hdgt), exc_bind_ok]
      dsimp only
      rw [if_neg (show ¬(¬is_core_product a.product = true ∧
        ¬is_core_product b.product = true ∧ (some rda) = (some rdb) ∧
        (some rva) ≠ (some rvb)) from fun hcg => hcg.2.2.2 (congrArg some hvv))]
      rfl
  · -- differing variant ranks, same deductible rank: the variant branch is
    -- guarded off by the clean detected variant order
    rw [if_neg (show ¬(¬is_core_product a.product = true ∧
      ¬is_core_product b.product = true ∧ (some rva) = (some rvb) ∧
      (some rda) ≠ (some rdb)) from fun hcg => hvv (Option.some.inj hcg.2.2.1))]
    simp only [exc_pure, exc_bind_ok]
    rw [if_pos (show (¬is_core_product a.product = true ∧
      ¬is_core_product b.product = true ∧ (some rda) = (some rdb) ∧
      (some rva) ≠ (some rvb)) from
      ⟨hacn, hbcn, congrArg some hdd, fun hc => hvv (Option.some.inj hc)⟩)]
    simp only [Option.getD_some]
    try dsimp only
    have hded : a.deductible = b.deductible := by
      rw [← hdd] at hdb
      exact ded_rank_inj hda hdb
    obtain ⟨v1, v2, hv1, hv2, i1, i2⟩ := c3 hded
    rw [hva] at hv1
    injection hv1 with hv1
    subst hv1
    rw [hvb] at hv2
    injection hv2 with hv2
    subst hv2
    by_cases hvlt : rva < rvb
    · have hL : lookupP prices (if rva < rvb then a else b).key = .ok qa := by
        rw [if_pos hvlt]
        exact hqa
      have hH : lookupP prices (if rva < rvb then b else a).key = .ok qb := by
        rw [if_pos hvlt]
        exact hqb
      exact variant_action_nofire hL hH (i1 hvlt)
    · have hvgt : rvb < rva := lt_of_le_of_ne (not_lt.mp hvlt) (fun hc => hvv hc.symm)
      have hL : lookupP prices (if rva < rvb then a else b).key = .ok qb := by
        rw [if_neg hvlt]
        exact hqb
      have hH : lookupP prices (if rva < rvb then b else a).key = .ok qa := by
        rw [if_neg hvlt]
        exact hqa
      exact variant_action_nofire hL hH (i2 hvgt)
  · -- differing variant ranks and differing deductible ranks: neither guard
    rw [if_neg (show ¬(¬is_core_product a.product = true ∧
      ¬is_core_product b.product = true ∧ (some rva) = (some rvb) ∧
      (some rda) ≠ (some rdb)) from fun hcg => hvv (Option.some.inj hcg.2.2.1))]
    simp only [exc_pure, exc_bind_ok]
    rw [if_neg (show ¬(¬is_core_product a.product = true ∧
      ¬is_core_product b.product = true ∧ (some rda) = (some rdb) ∧
      (some rva) ≠ (some rvb)) from fun hcg => hdd (Option.some.inj hcg.2.2.1))]

/-- A pair whose detection pass appended no report line is left untouched by
the repair pass: the full pair body of `fix_products_inplace` is the identity
on the running `(prices, changed)` state, given well-formed ranks and no
variant-rank ties among the items. -/
theorem pair_noop (avg : List (String × Frac)) (items : List PriceElement)
    (prices : PriceTable) (changed : Bool) (a b : PriceElement)
    (ha : a ∈ items) (hb : b ∈ items)
    (hra : ranks_ok a = true) (hrb : ranks_ok b = true)
    (hvinj : variant_ranks_injective items = true)
    (hdet : detect_pair_lines prices a b = .ok []) :
    processPair avg items (prices, changed) a b = .ok (prices, changed) := by
  obtain ⟨qa, qb, pa, pb, hqa, hqb, hpa, hpb, c1a, c1b, c2, c3, c4⟩ :=
    detect_pair_lines_nil_inv hdet
  unfold processPair
  dsimp only
  rw [hpa, exc_bind_ok, hpb, exc_bind_ok]
  by_cases hac : is_core_product a.product = true
  all_goals by_cases hbc : is_core_product b.product = true
  all_goals simp only [ranks_ok, hac, hbc, Bool.true_or, Bool.false_or, Bool.and_eq_true,
    Bool.or_eq_true] at hra hrb
  all_goals simp only [hac, hbc, if_true, if_false, exc_pure, exc_bind_ok]
  · by_cases hpp : pa = pb
    · rw [← hpp]
      exact processPairCore_noop_eq_core avg items prices changed a b pa
        none none none none qa qb hqa hqb hac
    · exact processPairCore_noop_ne avg items prices changed a b pa pb
        none none none none qa qb hqa hqb hpa hpb hpp c1a c1b c2
  · obtain ⟨rvb, hrvb⟩ := isOkE_exists hrb.2.1
    obtain ⟨rdb, hrdb⟩ := isOkE_exists hrb.2.2
    rw [hrvb, exc_bind_ok, hrdb]
    simp only [exc_pure, exc_bind_ok]
    by_cases hpp : pa = pb
    · have heq : a.product = b.product := prod_rank_inj hpa (by rw [← hpp] at hpb; exact hpb)
      rw [heq] at hac
      exact absurd hac hbc
    · exact processPairCore_noop_ne avg items prices changed a b pa pb
        none (some rvb) none (some rdb) qa qb hqa hqb hpa hpb hpp c1a c1b c2
  · obtain ⟨rva, hrva⟩ := isOkE_exists hra.2.1
    obtain ⟨rda, hrda⟩ := isOkE_exists hra.2.2
    rw [hrva, exc_bind_ok, hrda]
    simp only [exc_pure, exc_bind_ok]
    by_cases hpp : pa = pb
    · have heq : a.product = b.product := prod_rank_inj hpa (by rw [← hpp] at hpb; exact hpb)
      rw [← heq] at hbc
      exact absurd hbc hac
    · exact processPairCore_noop_ne avg items prices changed a b pa pb
        (some rva) none (some rda) none qa qb hqa hqb hpa hpb hpp c1a c1b c2
  · obtain ⟨rva, hrva⟩ := isOkE_exists hra.2.1
    obtain ⟨rda, hrda⟩ := isOkE_exists hra.2.2
    obtain ⟨rvb, hrvb⟩ := isOkE_exists hrb.2.1
    obtain ⟨rdb, hrdb⟩ := isOkE_exists hrb.2.2
    rw [hrva, exc_bind_ok]
    rw [hrvb]
    simp only [exc_pure, exc_bind_ok]
    rw [hrda]
    simp only [exc_pure, exc_bind_ok]
    rw [hrdb]
    simp only [exc_pure, exc_bind_ok]
    by_cases hpp : pa = pb
    · rw [← hpp]
      have heqp : a.product = b.product := prod_rank_inj hpa (by rw [← hpp] at hpb; exact hpb)
      exact processPairCore_noop_eq avg items prices changed a b pa rva rvb rda rdb qa qb
        hqa hqb hac hbc hrva hrvb hrda hrdb
        (fun hvv => vri_spec hvinj a ha b hb rva rvb hrva hrvb hvv)
        (fun hdd => c3 heqp hac hbc hdd)
        (fun hvv => c4 heqp hac hbc hvv)
    · exact processPairCore_noop_ne avg items prices changed a b pa pb
        (some rva) (some rvb) (some rda) (some rdb) qa qb hqa hqb hpa hpb hpp c1a c1b c2

theorem rule3_lines_mem {a b : PriceElement} {x y : Int} {ls : List String}
    (h : rule3_lines a b x y = .ok ls) : ∀ l ∈ ls, l ≠ "" := by
  intro l hl
  unfold rule3_lines at h
  split at h
  · obtain ⟨va, hva, h⟩ := exc_bind_ok_inv h
    try dsimp only at h
    obtain ⟨vb, hvb, h⟩ := exc_bind_ok_inv h
    try dsimp only at h
    repeat' split at h
    all_goals try rw [exc_pure] at h
    all_goals injection h with h'
    all_goals rw [← h'] at hl
    all_goals first
      | exact absurd hl (List.not_mem_nil l)
      | (rw [List.mem_singleton] at hl
         rw [hl]
         exact violationLine_ne _ _ _ _ _)
  · rw [exc_pure] at h
    injection h with h'
    rw [← h'] at hl
    exact absurd hl (List.not_mem_nil l)

theorem rule4_lines_mem {a b : PriceElement} {x y : Int} {ls : List String}
    (h : rule4_lines a b x y = .ok ls) : ∀ l ∈ ls, l ≠ "" := by
  intro l hl
  unfold rule4_lines at h
  split at h
  · obtain ⟨da, hda, h⟩ := exc_bind_ok_inv h
    try dsimp only at h
    obtain ⟨db, hdb, h⟩ := exc_bind_ok_inv h
    try dsimp only at h
    repeat' split at h
    all_goals try rw [exc_pure] at h
    all_goals injection h with h'
    all_goals rw [← h'] at hl
    all_goals first
      | exact absurd hl (List.not_mem_nil l)
      | (rw [List.mem_singleton] at hl
         rw [hl]
         exact violationLine_ne _ _ _ _ _)
  · rw [exc_pure] at h
    injection h with h'
    rw [← h'] at hl
    exact absurd hl (List.not_mem_nil l)

/-- Every line appended by a pair's detection body is a full violation
message, hence nonempty. -/
theorem detect_pair_lines_mem {prices : PriceTable} {a b : PriceElement}
    {ls : List String} (h : detect_pair_lines prices a b = .ok ls) :
    ∀ l ∈ ls, l ≠ "" := by
  intro l hl
  unfold detect_pair_lines at h
  obtain ⟨qa, hqa, h⟩ := exc_bind_ok_inv h
  try dsimp only at h
  obtain ⟨qb, hqb, h⟩ := exc_bind_ok_inv h
  try dsimp only at h
  obtain ⟨pa, hpa, h⟩ := exc_bind_ok_inv h
  try dsimp only at h
  obtain ⟨pb, hpb, h⟩ := exc_bind_ok_inv h
  try dsimp only at h
  obtain ⟨l3, h3, h⟩ := exc_bind_ok_inv h
  try dsimp only at h
  obtain ⟨l4, h4, h⟩ := exc_bind_ok_inv h
  try dsimp only at h
  rw [exc_pure] at h
  injection h with h'
  rw [← h'] at hl
  rcases List.mem_append.mp hl with h123 | hm4
  · rcases List.mem_append.mp h123 with h12 | hm3
    · rcases List.mem_append.mp h12 with hm1 | hm2
      · repeat' split at hm1
        all_goals first
          | exact absurd hm1 (List.not_mem_nil l)
          | (rw [List.mem_singleton] at hm1
             rw [hm1]
             exact violationLine_ne _ _ _ _ _)
      · repeat' split at hm2
        all_goals first
          | exact absurd hm2 (List.not_mem_nil l)
          | (rw [List.mem_singleton] at hm2
             rw [hm2]
             exact violationLine_ne _ _ _ _ _)
    · exact rule3_lines_mem h3 l hm3
  · exact rule4_lines_mem h4 l hm4

/-- The report fold of `detect_inconsistencies`: the accumulated lines only
grow by nonempty violation lines, and if they did not grow at all then every
scanned pair contributed no line. -/
theorem detectLines_fold_props :
    ∀ (pairs : List (PriceElement × PriceElement)) (acc : List String)
      (prices : PriceTable) (ls : List String) (p' : PriceTable),
      pairs.foldlM
        (fun st ab => do
          let (lsx, px) ← detect_pair st.2 ab.1 ab.2
          pure (st.1 ++ lsx, px)) (acc, prices) = .ok (ls, p') →
      (∃ suf, ls = acc ++ suf ∧ ∀ l ∈ suf, l ≠ "") ∧
      (ls = acc → ∀ ab ∈ pairs, detect_pair_lines prices ab.1 ab.2 = .ok []) := by
  intro pairs
  induction pairs with
  | nil =>
    intro acc prices ls p' h
    rw [List.foldlM_nil, exc_pure] at h
    injection h with h'
    have h1 : acc = ls := congrArg Prod.fst h'
    constructor
    · exact ⟨[], by rw [← h1, List.append_nil],
        fun l hl => absurd hl (List.not_mem_nil l)⟩
    · intro _ ab hab
      exact absurd hab (List.not_mem_nil ab)
  | cons hd tl ih =>
    intro acc prices ls p' h
    rw [List.foldlM_cons] at h
    obtain ⟨st, hst, hrest⟩ := exc_bind_ok_inv h
    obtain ⟨⟨ls0, p0⟩, hdp, hpure⟩ := exc_bind_ok_inv hst
    try dsimp only at hpure
    rw [exc_pure] at hpure
    injection hpure with hpure
    subst hpure
    unfold detect_pair at hdp
    obtain ⟨lsx, hdl, hpx⟩ := exc_bind_ok_inv hdp
    try dsimp only at hpx
    rw [exc_pure] at hpx
    injection hpx with hpx
    have hls0 : lsx = ls0 := congrArg Prod.fst hpx
    have hp0 : prices = p0 := congrArg Prod.snd hpx
    subst hls0
    subst hp0
    obtain ⟨⟨suf, hsuf, hsufne⟩, hnil⟩ := ih (acc ++ lsx) prices ls p' hrest
    constructor
    · refine ⟨lsx ++ suf, ?_, ?_⟩
      · rw [hsuf, List.append_assoc]
      · intro l hl
        rcases List.mem_append.mp hl with hm | hm
        · exact detect_pair_lines_mem hdl l hm
        · exact hsufne l hm
    · intro hacc ab hab
      have hx : acc ++ (lsx ++ suf) = acc ++ [] := by
        rw [List.append_nil, ← List.append_assoc, ← hsuf, hacc]
      have hnilx : lsx ++ suf = [] := List.append_cancel_left hx
      obtain ⟨hlsx, hsufnil⟩ := List.append_eq_nil.mp hnilx
      rcases List.mem_cons.mp hab with hab1 | hab2
      · rw [hab1]
        rw [hlsx] at hdl
        exact hdl
      · have hprem : ls = acc ++ lsx := by
          rw [hacc, hlsx, List.append_nil]
        exact hnil hprem ab hab2

/-- When every pair's detection body appends no line, one full repair pair
scan leaves the table untouched and reports no change. -/
theorem run_iteration_noop (avg : List (String × Frac)) (items : List PriceElement)
    (prices : PriceTable)
    (hwf : items.all ranks_ok = true)
    (hvinj : variant_ranks_injective items = true)
    (hdet : ∀ ab ∈ allPairs items, detect_pair_lines prices ab.1 ab.2 = .ok []) :
    run_iteration avg items prices = .ok (prices, false) := by
  unfold run_iteration
  apply foldlM_id
  intro ab hab
  obtain ⟨ha, hb⟩ := allPairs_mem items ab hab
  exact pair_noop avg items prices false ab.1 ab.2 ha hb
    (List.all_eq_true.mp hwf ab.1 ha) (List.all_eq_true.mp hwf ab.2 hb)
    hvinj (hdet ab hab)

/-- Claim C3 (amended): on a well-formed item list (all ranks resolvable) with
no two distinct variant names of equal variant rank among the items, an empty
detection report implies the repair pass is a no-op: its first pair scan
returns the table unchanged with the `changed` flag false, so
`fix_products_inplace` exits after that first no-change iteration and returns
the table unchanged, for every iteration budget. -/
theorem claim3_detect_empty_fix_noop (avg : List (String × Frac))
    (items : List PriceElement) (prices : PriceTable)
    (hwf : items.all ranks_ok = true)
    (hvinj : variant_ranks_injective items = true)
    (hdet : detect_inconsistencies items prices = .ok ("", prices)) :
    run_iteration avg items prices = .ok (prices, false) ∧
    ∀ n, fix_products_inplace items prices avg n = .ok prices := by
  unfold detect_inconsistencies at hdet
  obtain ⟨⟨ls, p2⟩, hdl, hpure⟩ := exc_bind_ok_inv hdet
  try dsimp only at hpure
  rw [exc_pure] at hpure
  injection hpure with hpure
  have hjoin : pyJoin "\n" ls = "" := congrArg Prod.fst hpure
  unfold detectLines at hdl
  obtain ⟨⟨suf, hsuf, hsufne⟩, hnil⟩ :=
    detectLines_fold_props (allPairs items) [] prices ls p2 hdl
  rw [List.nil_append] at hsuf
  have hlsnil : ls = [] := pyJoin_eq_empty (by rw [hsuf]; exact hsufne) hjoin
  have hpairs := hnil hlsnil
  have hiter := run_iteration_noop avg items prices hwf hvinj hpairs
  refine ⟨hiter, ?_⟩
  intro n
  cases n with
  | zero => rfl
  | succ m =>
    unfold fix_products_inplace fix_loop
    rw [hiter, exc_bind_ok]
    rfl

/-- Witness for `claim3_detect_empty_fix_noop`: on
`{mtpl: 400, casco_basic_100: 500, casco_basic_200: 450}` the detector
reports nothing, the pair scan is the identity with a false flag, and the
default-budget repair returns the table unchanged. -/
theorem claim3_witness :
    run_iteration []
        [⟨"mtpl", "mtpl", none, none⟩,
          ⟨"casco_basic_100", "casco", some "basic", some 100⟩,
          ⟨"casco_basic_200", "casco", some "basic", some 200⟩]
        [("mtpl", 400), ("casco_basic_100", 500), ("casco_basic_200", 450)] =
      .ok ([("mtpl", 400), ("casco_basic_100", 500), ("casco_basic_200", 450)], false) ∧
    fix_products_inplace
        [⟨"mtpl", "mtpl", none, none⟩,
          ⟨"casco_basic_100", "casco", some "basic", some 100⟩,
          ⟨"casco_basic_200", "casco", some "basic", some 200⟩]
        [("mtpl", 400), ("casco_basic_100", 500), ("casco_basic_200", 450)] [] 10 =
      .ok [("mtpl", 400), ("casco_basic_100", 500), ("casco_basic_200", 450)] := by
  have h := claim3_detect_empty_fix_noop []
    [⟨"mtpl", "mtpl", none, none⟩,
      ⟨"casco_basic_100", "casco", some "basic", some 100⟩,
      ⟨"casco_basic_200", "casco", some "basic", some 200⟩]
    [("mtpl", 400), ("casco_basic_100", 500), ("casco_basic_200", 450)]
    (by decide) (by decide) (by rfl)
  exact ⟨h.1, h.2 10⟩

end PriceVal
